import Mathlib

set_option maxHeartbeats 1000000

namespace EnvSync

/-! Shallow embedding of the envsync repository for specification checking.

The data model mirrors the Go structs in src/unnamed/part_003; the sync
engine mirrors `(*App).Push` and `(*App).Pull`; the remote revision
contract mirrors `(*App).saveRemoteFile` (src/internal/envsync/remote.go)
and `(*cloudServer).handleStore` / repository `Put` (src/unnamed/part_012);
the retry loop mirrors `(*App).withHTTPRetry`; expiry handling mirrors
`(*App).Set` / `Get` / `List` / `Load`; owner resolution mirrors
`(*cloudServer).resolveOwner` and `legacyOwnerID`; recovery-phrase word
selection mirrors `randomWordIndex` (src/internal/envsync/crypto.go). -/

/-- One immutable encrypted snapshot of a secret value: the Go struct
`SecretVersion` with fields `Version`, `NonceB64`, `CipherB64`, `Deleted`,
`Rotated`, `ExpiresAt`, `UpdatedAt`, `DeviceID`, `PlainHash`.  Go `int`
is modelled as `Int`; the base64/hex payloads are kept as opaque strings,
exactly as the Go code stores them. -/
structure SecretVersion where
  version : Int
  nonceB64 : String
  cipherB64 : String
  deleted : Bool
  rotated : Bool
  expiresAt : String
  updatedAt : String
  deviceID : String
  plainHash : String
deriving Repr, DecidableEq

/-- A versioned secret record: the Go struct `SecretRecord` with
`CurrentVersion`, `LastSyncedRemoteVersion` and the append-only
`Versions` list. -/
structure SecretRecord where
  currentVersion : Int
  lastSyncedRemoteVersion : Int
  versions : List SecretVersion
deriving Repr, DecidableEq

/-- An environment's variable map (`map[string]*SecretRecord` in Go),
modelled as an association list keyed by variable name.  Go map iteration
order is unspecified, and each loop iteration of `Push`/`Pull` touches
only the entries of its own key, so an association list with unique keys
is a faithful model of the observable behaviour. -/
abbrev Env := List (String × SecretRecord)

/-- Keys of an environment. -/
def envKeys (e : Env) : List String := e.map Prod.fst

/-- Distinct keys, the invariant a Go map gives for free. -/
abbrev KeysNodup (e : Env) : Prop := (envKeys e).Nodup

/-- `remoteCurrent` in `Push`: the remote record's `CurrentVersion`, or 0
when the key is absent from the remote environment. -/
def rcOf : Option SecretRecord → Int
  | some r => r.currentVersion
  | none => 0

/-- The conflict predicate of `Push` (src/unnamed/part_003 line 2393):
`remoteCurrent > localRec.LastSyncedRemoteVersion &&
localRec.CurrentVersion > localRec.LastSyncedRemoteVersion`. -/
def pushConflict (l : SecretRecord) (r? : Option SecretRecord) : Bool :=
  decide (l.lastSyncedRemoteVersion < rcOf r?) &&
    decide (l.lastSyncedRemoteVersion < l.currentVersion)

/-- Mark a local record as synced: `localRec.LastSyncedRemoteVersion =
localRec.CurrentVersion`. -/
def markSynced (l : SecretRecord) : SecretRecord :=
  { l with lastSyncedRemoteVersion := l.currentVersion }

/-- The remote record stored at one key by a (conflict-free or forced)
push.  In Go the `copyRec := *localRec` copy is taken before
`LastSyncedRemoteVersion` is bumped, so the remote copy carries the
original record. -/
def pushKeyRemote (force : Bool) (l : SecretRecord) (r? : Option SecretRecord) :
    Option SecretRecord :=
  if pushConflict l r? then (if force then some l else r?)
  else if rcOf r? ≤ l.currentVersion then some l else r?

/-- The local record after a push processed one key (only
`LastSyncedRemoteVersion` can change). -/
def pushKeyLocal (force : Bool) (l : SecretRecord) (r? : Option SecretRecord) :
    SecretRecord :=
  if pushConflict l r? then (if force then markSynced l else l)
  else if rcOf r? ≤ l.currentVersion then markSynced l else l

/-- The conflicting keys collected by the push loop, in local iteration
order. -/
def pushConflictKeys (L R : Env) : List String :=
  (L.filter (fun p => pushConflict p.2 (R.lookup p.1))).map Prod.fst

/-- The local environment after a successful push. -/
def pushNewLocal (force : Bool) (L R : Env) : Env :=
  L.map (fun p => (p.1, pushKeyLocal force p.2 (R.lookup p.1)))

/-- The remote environment after a successful push: every local key's
entry is rewritten per `pushKeyRemote`; remote-only keys are untouched. -/
def pushNewRemote (force : Bool) (L R : Env) : Env :=
  (L.filterMap fun p => (pushKeyRemote force p.2 (R.lookup p.1)).map ((p.1, ·)))
    ++ R.filter (fun p => (L.lookup p.1).isNone)

/-- The pair of persisted environments (local vault, remote store). -/
structure SyncWorld where
  localEnv : Env
  remoteEnv : Env
deriving Repr, DecidableEq

/-- `(*App).Push` on one project/environment: on conflicts without
`--force` it returns the conflict list and neither store is saved;
otherwise both the remote store and the local state are written. -/
def pushRun (force : Bool) (w : SyncWorld) : SyncWorld × Option (List String) :=
  let cs := pushConflictKeys w.localEnv w.remoteEnv
  if !cs.isEmpty && !force then (w, some cs)
  else ({ localEnv := pushNewLocal force w.localEnv w.remoteEnv,
          remoteEnv := pushNewRemote force w.localEnv w.remoteEnv }, none)

/-- The conflict predicate of `Pull` (same shape as the push one, with the
remote record present). -/
def pullConflict (l r : SecretRecord) : Bool :=
  decide (l.lastSyncedRemoteVersion < r.currentVersion) &&
    decide (l.lastSyncedRemoteVersion < l.currentVersion)

/-- Copy a remote record into the local vault:
`copyRec.LastSyncedRemoteVersion = remoteRec.CurrentVersion`. -/
def adoptRemote (r : SecretRecord) : SecretRecord :=
  { r with lastSyncedRemoteVersion := r.currentVersion }

/-- The local record after the pull loop processed a key present on both
sides (src/unnamed/part_003 lines 2474-2493): note that `forceRemote`
makes the remote record win even on the non-conflicting branch. -/
def pullKeyLocal (forceRemote : Bool) (l r : SecretRecord) : SecretRecord :=
  if pullConflict l r then (if forceRemote then adoptRemote r else l)
  else if decide (l.currentVersion ≤ r.currentVersion) || forceRemote then adoptRemote r
  else l

/-- The conflicting keys collected by the pull loop (remote iteration
order; locally-absent keys never conflict). -/
def pullConflictKeys (L R : Env) : List String :=
  (R.filter fun p =>
    match L.lookup p.1 with
    | some l => pullConflict l p.2
    | none => false).map Prod.fst

/-- The local environment after a successful pull: local keys are
rewritten against their remote counterpart, and remote-only keys are
adopted. -/
def pullNewLocal (forceRemote : Bool) (L R : Env) : Env :=
  (L.map fun p =>
    (p.1, match R.lookup p.1 with
          | some r => pullKeyLocal forceRemote p.2 r
          | none => p.2))
    ++ (R.filter (fun p => (L.lookup p.1).isNone)).map (fun p => (p.1, adoptRemote p.2))

/-- `(*App).Pull` on one project/environment: on conflicts without
`--force-remote` it returns the conflict list and the local state is not
saved; `Pull` never writes the remote store. -/
def pullRun (forceRemote : Bool) (w : SyncWorld) : SyncWorld × Option (List String) :=
  let cs := pullConflictKeys w.localEnv w.remoteEnv
  if !cs.isEmpty && !forceRemote then (w, some cs)
  else ({ localEnv := pullNewLocal forceRemote w.localEnv w.remoteEnv,
          remoteEnv := w.remoteEnv }, none)

/-! Association-list lookup lemmas used to read the push/pull results
pointwise. -/

theorem lookup_eq_none_iff {β : Type} (l : List (String × β)) (k : String) :
    l.lookup k = none ↔ k ∉ l.map Prod.fst := by
  induction l with
  | nil => simp [List.lookup]
  | cons p t ih =>
    obtain ⟨a, b⟩ := p
    simp only [List.lookup, List.map_cons, List.mem_cons]
    cases h : k == a with
    | true =>
      simp only [eq_of_beq h]
      simp
    | false =>
      have : k ≠ a := by
        intro he
        subst he
        simp at h
      simp [this, ih]

theorem mem_of_lookup_eq_some {β : Type} {l : List (String × β)} {k : String} {v : β}
    (h : l.lookup k = some v) : (k, v) ∈ l := by
  induction l with
  | nil => simp [List.lookup] at h
  | cons p t ih =>
    obtain ⟨a, b⟩ := p
    simp only [List.lookup] at h
    cases hk : k == a with
    | true =>
      rw [hk] at h
      simp only [Option.some.injEq] at h
      subst h
      have : k = a := eq_of_beq hk
      subst this
      exact List.mem_cons_self _ _
    | false =>
      rw [hk] at h
      exact List.mem_cons_of_mem _ (ih h)

theorem lookup_map_keyed {β γ : Type} (f : String → β → γ) (l : List (String × β))
    (k : String) :
    (l.map fun p => (p.1, f p.1 p.2)).lookup k = (l.lookup k).map (f k) := by
  induction l with
  | nil => rfl
  | cons p t ih =>
    obtain ⟨a, b⟩ := p
    simp only [List.map_cons, List.lookup]
    cases h : k == a with
    | true => simp [eq_of_beq h]
    | false => simpa using ih

theorem lookup_append_or {β : Type} (l₁ l₂ : List (String × β)) (k : String) :
    (l₁ ++ l₂).lookup k =
      match l₁.lookup k with
      | some v => some v
      | none => l₂.lookup k := by
  induction l₁ with
  | nil => simp [List.lookup]
  | cons p t ih =>
    obtain ⟨a, b⟩ := p
    simp only [List.cons_append, List.lookup]
    cases h : k == a with
    | true => simp
    | false => simpa using ih

theorem lookup_filter_keyPred {β : Type} (q : String → Bool) (l : List (String × β))
    (k : String) :
    (l.filter fun p => q p.1).lookup k = if q k then l.lookup k else none := by
  induction l with
  | nil => simp [List.lookup]
  | cons p t ih =>
    obtain ⟨a, b⟩ := p
    by_cases hk : k = a
    · subst hk
      cases hq : q k with
      | true => simp [List.filter_cons, hq, List.lookup]
      | false => simp [List.filter_cons, hq, List.lookup, ih]
    · have hbeq : (k == a) = false := by
        simp [hk]
      cases hq : q a with
      | true => simp [List.filter_cons, hq, List.lookup, hbeq, ih]
      | false => simp [List.filter_cons, hq, List.lookup, hbeq, ih]

theorem keys_filterMap_keyed_sublist {β γ : Type} (g : String → β → Option γ)
    (l : List (String × β)) :
    ((l.filterMap fun p => (g p.1 p.2).map ((p.1, ·))).map Prod.fst).Sublist
      (l.map Prod.fst) := by
  induction l with
  | nil => simp
  | cons p t ih =>
    obtain ⟨a, b⟩ := p
    simp only [List.filterMap_cons]
    cases hg : g a b with
    | none =>
      simp only [Option.map_none, List.map_cons]
      exact ih.cons _
    | some c =>
      simp only [Option.map_some, List.map_cons]
      exact ih.cons₂ _

theorem lookup_filterMap_keyed {β γ : Type} (g : String → β → Option γ)
    {l : List (String × β)} (hl : (l.map Prod.fst).Nodup) (k : String) :
    (l.filterMap fun p => (g p.1 p.2).map ((p.1, ·))).lookup k =
      (l.lookup k).bind (g k) := by
  induction l with
  | nil => rfl
  | cons p t ih =>
    obtain ⟨a, b⟩ := p
    simp only [List.map_cons, List.nodup_cons] at hl
    by_cases hk : k = a
    · subst hk
      cases hg : g k b with
      | none =>
        have hnone : (t.filterMap fun p => (g p.1 p.2).map ((p.1, ·))).lookup k = none :=
          (lookup_eq_none_iff _ k).mpr fun hmem =>
            hl.1 ((keys_filterMap_keyed_sublist g t).subset hmem)
        simp [List.filterMap_cons, hg, List.lookup, hnone]
      | some c =>
        simp [List.filterMap_cons, hg, List.lookup]
    · have hbeq : (k == a) = false := by
        simp [hk]
      cases hg : g a b with
      | none =>
        simp [List.filterMap_cons, hg, List.lookup, hbeq, ih hl.2]
      | some c =>
        simp [List.filterMap_cons, hg, List.lookup, hbeq, ih hl.2]

/-! Pointwise characterizations of the push/pull environment updates. -/

theorem lookup_pushNewLocal (force : Bool) (L R : Env) (k : String) :
    (pushNewLocal force L R).lookup k =
      (L.lookup k).map (fun l => pushKeyLocal force l (R.lookup k)) := by
  have h := lookup_map_keyed (fun a l => pushKeyLocal force l (R.lookup a)) L k
  simpa [pushNewLocal] using h

theorem lookup_pushNewRemote (force : Bool) {L : Env} (R : Env)
    (hL : KeysNodup L) (k : String) :
    (pushNewRemote force L R).lookup k =
      match L.lookup k with
      | some l => pushKeyRemote force l (R.lookup k)
      | none => R.lookup k := by
  unfold pushNewRemote
  rw [lookup_append_or]
  rw [lookup_filterMap_keyed (fun a l => pushKeyRemote force l (R.lookup a)) hL]
  rw [lookup_filter_keyPred (fun a => (L.lookup a).isNone) R k]
  cases hlk : L.lookup k with
  | none => simp
  | some l =>
    cases hres : pushKeyRemote force l (R.lookup k) with
    | none => simp [hlk, hres]
    | some r => simp [hlk, hres]

theorem lookup_pullNewLocal (forceRemote : Bool) (L R : Env) (k : String) :
    (pullNewLocal forceRemote L R).lookup k =
      match L.lookup k, R.lookup k with
      | some l, some r => some (pullKeyLocal forceRemote l r)
      | some l, none => some l
      | none, some r => some (adoptRemote r)
      | none, none => none := by
  unfold pullNewLocal
  rw [lookup_append_or]
  have h1 := lookup_map_keyed
    (fun a l => match R.lookup a with
                | some r => pullKeyLocal forceRemote l r
                | none => l) L k
  rw [h1]
  have h2 := lookup_map_keyed (fun _ r => adoptRemote r)
    (R.filter (fun p => (L.lookup p.1).isNone)) k
  simp only [h2]
  rw [lookup_filter_keyPred (fun a => (L.lookup a).isNone) R k]
  cases hlk : L.lookup k with
  | none =>
    cases hrk : R.lookup k with
    | none => simp [hlk, hrk]
    | some r => simp [hlk, hrk]
  | some l =>
    cases hrk : R.lookup k with
    | none => simp [hlk, hrk]
    | some r => simp [hlk, hrk]

theorem envKeys_pushNewLocal (force : Bool) (L R : Env) :
    envKeys (pushNewLocal force L R) = envKeys L := by
  simp [envKeys, pushNewLocal]

theorem keysNodup_pushNewRemote (force : Bool) {L R : Env}
    (hL : KeysNodup L) (hR : KeysNodup R) :
    KeysNodup (pushNewRemote force L R) := by
  unfold KeysNodup envKeys pushNewRemote
  rw [List.map_append, List.nodup_append]
  refine ⟨(keys_filterMap_keyed_sublist
      (fun a l => pushKeyRemote force l (R.lookup a)) L).nodup hL, ?_, ?_⟩
  · exact ((List.filter_sublist R).map Prod.fst).nodup hR
  · intro k hk1 hk2
    have hmemL : k ∈ List.map Prod.fst L :=
      (keys_filterMap_keyed_sublist
        (fun a l => pushKeyRemote force l (R.lookup a)) L).subset hk1
    simp only [List.mem_map] at hk2
    obtain ⟨⟨a2, v2⟩, hmem2, rfl⟩ := hk2
    have hpred := List.of_mem_filter hmem2
    have hnone : L.lookup (a2, v2).1 = none := by
      simpa [Option.isNone_iff_eq_none] using hpred
    exact (lookup_eq_none_iff L _).mp hnone hmemL

theorem lookup_eq_some_iff_mem {β : Type} {l : List (String × β)}
    (hl : (l.map Prod.fst).Nodup) {k : String} {v : β} :
    l.lookup k = some v ↔ (k, v) ∈ l := by
  constructor
  · exact mem_of_lookup_eq_some
  · intro hmem
    induction l with
    | nil => simp at hmem
    | cons p t ih =>
      obtain ⟨a, b⟩ := p
      simp only [List.map_cons, List.nodup_cons] at hl
      rcases List.mem_cons.mp hmem with heq | htail
      · cases heq
        simp [List.lookup]
      · have hka : k ≠ a := by
          intro he
          subst he
          exact hl.1 (List.mem_map.mpr ⟨(k, v), htail, rfl⟩)
        have hbeq : (k == a) = false := by
          simp [hka]
        simp only [List.lookup, hbeq]
        exact ih hl.2 htail

theorem mem_pushConflictKeys_iff {L R : Env} (hL : KeysNodup L) (k : String) :
    k ∈ pushConflictKeys L R ↔
      ∃ l, L.lookup k = some l ∧ pushConflict l (R.lookup k) = true := by
  unfold pushConflictKeys
  constructor
  · intro hmem
    simp only [List.mem_map] at hmem
    obtain ⟨⟨a, v⟩, hmem, rfl⟩ := hmem
    have hv := List.of_mem_filter hmem
    have hmemL : ((a, v).1, v) ∈ L := List.mem_of_mem_filter hmem
    exact ⟨v, (lookup_eq_some_iff_mem hL).mpr hmemL, hv⟩
  · intro ⟨l, hlk, hconf⟩
    have hmem := mem_of_lookup_eq_some hlk
    simp only [List.mem_map]
    exact ⟨(k, l), List.mem_filter.mpr ⟨hmem, hconf⟩, rfl⟩

theorem pushRun_success (force : Bool) (w : SyncWorld)
    (h : (pushRun force w).2 = none) :
    pushRun force w =
      ({ localEnv := pushNewLocal force w.localEnv w.remoteEnv,
         remoteEnv := pushNewRemote force w.localEnv w.remoteEnv }, none) := by
  unfold pushRun at h ⊢
  by_cases hc : (!(pushConflictKeys w.localEnv w.remoteEnv).isEmpty && !force) = true
  · rw [if_pos hc] at h
    simp at h
  · rw [if_neg hc]

theorem pullRun_success (forceRemote : Bool) (w : SyncWorld)
    (h : (pullRun forceRemote w).2 = none) :
    pullRun forceRemote w =
      ({ localEnv := pullNewLocal forceRemote w.localEnv w.remoteEnv,
         remoteEnv := w.remoteEnv }, none) := by
  unfold pullRun at h ⊢
  by_cases hc : (!(pullConflictKeys w.localEnv w.remoteEnv).isEmpty && !forceRemote) = true
  · rw [if_pos hc] at h
    simp at h
  · rw [if_neg hc]

/-- C1: for a Push over local environment `L` and remote environment `R`,
a key conflicts exactly when both sides moved past the last synced
version (`rc > ls` and `lc > ls`); with conflicts and no `--force` the
push fails listing exactly the conflicting keys and neither store
changes; under `--force` each conflicting key's remote record is replaced
by the local record; and every non-conflicting key with `lc ≥ rc`
(`rc = 0` when absent) is copied to the remote with
`LastSyncedRemoteVersion` set to `lc`. -/
theorem push_contract (force : Bool) (w : SyncWorld)
    (hL : KeysNodup w.localEnv) :
    (∀ k l r, w.localEnv.lookup k = some l → w.remoteEnv.lookup k = some r →
      (k ∈ pushConflictKeys w.localEnv w.remoteEnv ↔
        (l.lastSyncedRemoteVersion < r.currentVersion ∧
         l.lastSyncedRemoteVersion < l.currentVersion))) ∧
    (pushConflictKeys w.localEnv w.remoteEnv ≠ [] → force = false →
      pushRun force w = (w, some (pushConflictKeys w.localEnv w.remoteEnv))) ∧
    ((pushRun force w).2 = none →
      ∀ k l, w.localEnv.lookup k = some l →
        pushConflict l (w.remoteEnv.lookup k) = true →
        (pushRun force w).1.remoteEnv.lookup k = some l ∧
        (pushRun force w).1.localEnv.lookup k = some (markSynced l)) ∧
    ((pushRun force w).2 = none →
      ∀ k l, w.localEnv.lookup k = some l →
        pushConflict l (w.remoteEnv.lookup k) = false →
        rcOf (w.remoteEnv.lookup k) ≤ l.currentVersion →
        (pushRun force w).1.remoteEnv.lookup k = some l ∧
        (pushRun force w).1.localEnv.lookup k = some (markSynced l)) := by
  refine ⟨?_, ?_, ?_, ?_⟩
  · intro k l r hlk hrk
    rw [mem_pushConflictKeys_iff hL]
    constructor
    · intro ⟨l2, hlk2, hconf⟩
      rw [hlk] at hlk2
      cases hlk2
      simp only [pushConflict, hrk, rcOf, Bool.and_eq_true, decide_eq_true_eq] at hconf
      exact hconf
    · intro hc
      refine ⟨l, hlk, ?_⟩
      simp only [pushConflict, hrk, rcOf, Bool.and_eq_true, decide_eq_true_eq]
      exact hc
  · intro hne hforce
    subst hforce
    unfold pushRun
    rw [if_pos]
    simp [List.isEmpty_iff, hne]
  · intro hsucc k l hlk hconf
    have hforce : force = true := by
      by_contra hf
      have hf2 : force = false := by
        cases force
        · rfl
        · exact absurd rfl hf
      have hkmem : k ∈ pushConflictKeys w.localEnv w.remoteEnv :=
        (mem_pushConflictKeys_iff hL k).mpr ⟨l, hlk, hconf⟩
      have hne : pushConflictKeys w.localEnv w.remoteEnv ≠ [] := by
        intro he
        rw [he] at hkmem
        simp at hkmem
      unfold pushRun at hsucc
      rw [if_pos (by simp [List.isEmpty_iff, hne, hf2])] at hsucc
      simp at hsucc
    subst hforce
    rw [pushRun_success true w hsucc]
    constructor
    · rw [lookup_pushNewRemote true w.remoteEnv hL k, hlk]
      simp [pushKeyRemote, hconf]
    · rw [lookup_pushNewLocal true w.localEnv w.remoteEnv k, hlk]
      simp [pushKeyLocal, hconf]
  · intro hsucc k l hlk hconf hle
    rw [pushRun_success force w hsucc]
    constructor
    · rw [lookup_pushNewRemote force w.remoteEnv hL k, hlk]
      simp [pushKeyRemote, hconf, hle]
    · rw [lookup_pushNewLocal force w.localEnv w.remoteEnv k, hlk]
      simp [pushKeyLocal, hconf, hle]

/-- Witness for `push_contract` at a concrete world: a non-conflicting
local key `API_KEY` (`lc = 2 ≥ rc = 1`, `ls = 1`) is fast-forwarded to
the remote and its `LastSyncedRemoteVersion` becomes 2. -/
theorem push_contract_witness :
    KeysNodup ([("API_KEY", ⟨2, 1, []⟩)] : Env) ∧
    (pushRun false
      ⟨[("API_KEY", ⟨2, 1, []⟩)],
       [("API_KEY", ⟨1, 0, []⟩)]⟩).1.remoteEnv.lookup "API_KEY" =
        some ⟨2, 1, []⟩ ∧
    (pushRun false
      ⟨[("API_KEY", ⟨2, 1, []⟩)],
       [("API_KEY", ⟨1, 0, []⟩)]⟩).1.localEnv.lookup "API_KEY" =
        some ⟨2, 2, []⟩ :=
  ⟨by decide,
   ((push_contract false
      ⟨[("API_KEY", ⟨2, 1, []⟩)], [("API_KEY", ⟨1, 0, []⟩)]⟩
      (by decide)).2.2.2 (by decide) "API_KEY" ⟨2, 1, []⟩ (by decide)
      (by decide) (by decide)).1,
   ((push_contract false
      ⟨[("API_KEY", ⟨2, 1, []⟩)], [("API_KEY", ⟨1, 0, []⟩)]⟩
      (by decide)).2.2.2 (by decide) "API_KEY" ⟨2, 1, []⟩ (by decide)
      (by decide) (by decide)).2⟩

theorem mem_pullConflictKeys_iff {L R : Env} (hR : KeysNodup R) (k : String) :
    k ∈ pullConflictKeys L R ↔
      ∃ r l, R.lookup k = some r ∧ L.lookup k = some l ∧ pullConflict l r = true := by
  unfold pullConflictKeys
  constructor
  · intro hmem
    simp only [List.mem_map] at hmem
    obtain ⟨⟨a, v⟩, hmem, rfl⟩ := hmem
    have hv := List.of_mem_filter hmem
    have hmemR : ((a, v).1, v) ∈ R := List.mem_of_mem_filter hmem
    refine ⟨v, ?_⟩
    cases hlk : L.lookup (a, v).1 with
    | none =>
      rw [hlk] at hv
      simp at hv
    | some l =>
      rw [hlk] at hv
      exact ⟨l, (lookup_eq_some_iff_mem hR).mpr hmemR, rfl, hv⟩
  · intro ⟨r, l, hrk, hlk, hconf⟩
    have hmem := mem_of_lookup_eq_some hrk
    simp only [List.mem_map]
    refine ⟨(k, r), List.mem_filter.mpr ⟨hmem, ?_⟩, rfl⟩
    rw [hlk]
    exact hconf

/-- Counterexample to C2 as stated: key `API_KEY` is present on both
sides and NOT in conflict (`rc = 1 ≤ ls = 1`), and the local record is
strictly ahead (`lc = 3 > rc = 1`); the claim says such a record stays
unchanged and that `--force-remote` makes the remote win only for
conflicting keys, yet `Pull --force-remote` overwrites it with the
remote record. -/
theorem pull_force_remote_counterexample :
    pullConflict ⟨3, 1, []⟩ ⟨1, 0, []⟩ = false ∧
    (⟨1, 0, []⟩ : SecretRecord).currentVersion <
      (⟨3, 1, []⟩ : SecretRecord).currentVersion ∧
    (pullRun true
      ⟨[("API_KEY", ⟨3, 1, []⟩)],
       [("API_KEY", ⟨1, 0, []⟩)]⟩).2 = none ∧
    (pullRun true
      ⟨[("API_KEY", ⟨3, 1, []⟩)],
       [("API_KEY", ⟨1, 0, []⟩)]⟩).1.localEnv.lookup "API_KEY" =
        some ⟨1, 1, []⟩ ∧
    some (⟨1, 1, []⟩ : SecretRecord) ≠ some (⟨3, 1, []⟩ : SecretRecord) := by
  decide

/-- C2 as amended: on Pull, a locally-absent key is always copied (with
`LastSyncedRemoteVersion := rc`); a non-conflicting key present on both
sides is replaced by the remote record exactly when `rc ≥ lc` OR
`--force-remote` is given (so `--force-remote` makes the remote win for
every key present on the remote, not only conflicting ones); conflicting
keys abort the pull without `--force-remote` and adopt the remote record
with it; keys absent from the remote are untouched. -/
theorem pull_contract (forceRemote : Bool) (w : SyncWorld)
    (hR : KeysNodup w.remoteEnv) :
    (∀ k l r, w.localEnv.lookup k = some l → w.remoteEnv.lookup k = some r →
      (k ∈ pullConflictKeys w.localEnv w.remoteEnv ↔
        (l.lastSyncedRemoteVersion < r.currentVersion ∧
         l.lastSyncedRemoteVersion < l.currentVersion))) ∧
    (pullConflictKeys w.localEnv w.remoteEnv ≠ [] → forceRemote = false →
      pullRun forceRemote w = (w, some (pullConflictKeys w.localEnv w.remoteEnv))) ∧
    ((pullRun forceRemote w).2 = none →
      ∀ k r, w.remoteEnv.lookup k = some r →
        (w.localEnv.lookup k = none →
          (pullRun forceRemote w).1.localEnv.lookup k = some (adoptRemote r)) ∧
        (∀ l, w.localEnv.lookup k = some l → pullConflict l r = false →
          (pullRun forceRemote w).1.localEnv.lookup k =
            (if l.currentVersion ≤ r.currentVersion || forceRemote
             then some (adoptRemote r) else some l)) ∧
        (∀ l, w.localEnv.lookup k = some l → pullConflict l r = true →
          (pullRun forceRemote w).1.localEnv.lookup k = some (adoptRemote r))) ∧
    ((pullRun forceRemote w).2 = none →
      ∀ k l, w.localEnv.lookup k = some l → w.remoteEnv.lookup k = none →
        (pullRun forceRemote w).1.localEnv.lookup k = some l) := by
  refine ⟨?_, ?_, ?_, ?_⟩
  · intro k l r hlk hrk
    rw [mem_pullConflictKeys_iff hR]
    constructor
    · intro ⟨r2, l2, hrk2, hlk2, hconf⟩
      rw [hrk] at hrk2
      rw [hlk] at hlk2
      cases hrk2
      cases hlk2
      simp only [pullConflict, Bool.and_eq_true, decide_eq_true_eq] at hconf
      exact hconf
    · intro hc
      refine ⟨r, l, hrk, hlk, ?_⟩
      simp only [pullConflict, Bool.and_eq_true, decide_eq_true_eq]
      exact hc
  · intro hne hforce
    subst hforce
    unfold pullRun
    rw [if_pos]
    simp [List.isEmpty_iff, hne]
  · intro hsucc k r hrk
    rw [pullRun_success forceRemote w hsucc]
    refine ⟨?_, ?_, ?_⟩
    · intro hlk
      rw [lookup_pullNewLocal forceRemote w.localEnv w.remoteEnv k, hlk, hrk]
    · intro l hlk hconf
      rw [lookup_pullNewLocal forceRemote w.localEnv w.remoteEnv k, hlk, hrk]
      simp only [pullKeyLocal, hconf, Bool.false_eq_true, if_false]
      by_cases hle : (decide (l.currentVersion ≤ r.currentVersion) || forceRemote) = true
      · rw [if_pos hle, hle]
        simp
      · rw [if_neg hle]
        simp only [Bool.or_eq_true, decide_eq_true_eq] at hle
        push_neg at hle
        rw [if_neg]
        simp only [Bool.or_eq_true, decide_eq_true_eq]
        push_neg
        exact hle
    · intro l hlk hconf
      have hforce : forceRemote = true := by
        by_contra hf
        have hf2 : forceRemote = false := by
          cases forceRemote
          · rfl
          · exact absurd rfl hf
        have hkmem : k ∈ pullConflictKeys w.localEnv w.remoteEnv :=
          (mem_pullConflictKeys_iff hR k).mpr ⟨r, l, hrk, hlk, hconf⟩
        have hne : pullConflictKeys w.localEnv w.remoteEnv ≠ [] := by
          intro he
          rw [he] at hkmem
          simp at hkmem
        unfold pullRun at hsucc
        rw [if_pos (by simp [List.isEmpty_iff, hne, hf2])] at hsucc
        simp at hsucc
      subst hforce
      rw [lookup_pullNewLocal true w.localEnv w.remoteEnv k, hlk, hrk]
      simp [pullKeyLocal, hconf]
  · intro hsucc k l hlk hrk
    rw [pullRun_success forceRemote w hsucc]
    rw [lookup_pullNewLocal forceRemote w.localEnv w.remoteEnv k, hlk, hrk]

/-- Witness for `pull_contract`: a locally-absent key `DB_URL` is copied
in with `LastSyncedRemoteVersion` set to the remote version. -/
theorem pull_contract_witness :
    KeysNodup ([("DB_URL", ⟨2, 0, []⟩)] : Env) ∧
    (pullRun false ⟨[], [("DB_URL", ⟨2, 0, []⟩)]⟩).1.localEnv.lookup "DB_URL" =
      some ⟨2, 2, []⟩ :=
  ⟨by decide,
   ((pull_contract false ⟨[], [("DB_URL", ⟨2, 0, []⟩)]⟩
      (by decide)).2.2.1 (by decide) "DB_URL" ⟨2, 0, []⟩ (by decide)).1 (by decide)⟩

theorem push_success_force_of_conflict {f : Bool} {w : SyncWorld}
    (hL : KeysNodup w.localEnv) (hsucc : (pushRun f w).2 = none)
    {k : String} {l : SecretRecord} (hlk : w.localEnv.lookup k = some l)
    (hconf : pushConflict l (w.remoteEnv.lookup k) = true) : f = true := by
  by_contra hf
  have hf2 : f = false := by
    cases f
    · rfl
    · exact absurd rfl hf
  have hkmem : k ∈ pushConflictKeys w.localEnv w.remoteEnv :=
    (mem_pushConflictKeys_iff hL k).mpr ⟨l, hlk, hconf⟩
  have hne : pushConflictKeys w.localEnv w.remoteEnv ≠ [] := by
    intro he
    rw [he] at hkmem
    simp at hkmem
  unfold pushRun at hsucc
  rw [if_pos (by simp [List.isEmpty_iff, hne, hf2])] at hsucc
  simp at hsucc

/-- C5: after a successful Push immediately followed by a successful Pull
for the same project/environment against the same (unchanged) remote,
the local and remote environments hold exactly the same keys, and every
key carries the same `CurrentVersion` on both sides.  Requires the local
map to have distinct keys and non-negative current versions (true of any
record the vault ever writes, whose versions start at 1). -/
theorem push_pull_roundtrip (f g : Bool) (w w1 w2 : SyncWorld)
    (hL : KeysNodup w.localEnv)
    (hpos : ∀ k l, w.localEnv.lookup k = some l → 0 ≤ l.currentVersion)
    (hpush : pushRun f w = (w1, none))
    (hpull : pullRun g w1 = (w2, none)) :
    (∀ k, (w2.localEnv.lookup k).isSome = (w2.remoteEnv.lookup k).isSome) ∧
    (∀ k l r, w2.localEnv.lookup k = some l → w2.remoteEnv.lookup k = some r →
      l.currentVersion = r.currentVersion) := by
  have hpushsucc : (pushRun f w).2 = none := by
    rw [hpush]
  have hpullsucc : (pullRun g w1).2 = none := by
    rw [hpull]
  have hw1 : w1 = { localEnv := pushNewLocal f w.localEnv w.remoteEnv,
                    remoteEnv := pushNewRemote f w.localEnv w.remoteEnv } := by
    have h := pushRun_success f w hpushsucc
    rw [hpush] at h
    exact congrArg Prod.fst h
  have hw2 : w2 = { localEnv := pullNewLocal g w1.localEnv w1.remoteEnv,
                    remoteEnv := w1.remoteEnv } := by
    have h := pullRun_success g w1 hpullsucc
    rw [hpull] at h
    exact congrArg Prod.fst h
  have step : ∀ l : SecretRecord, pullKeyLocal g (markSynced l) l = adoptRemote l := by
    intro l
    simp [pullKeyLocal, pullConflict, markSynced, adoptRemote]
  have master : ∀ k,
      (w2.localEnv.lookup k = none ∧ w2.remoteEnv.lookup k = none) ∨
      (∃ l r, w2.localEnv.lookup k = some l ∧ w2.remoteEnv.lookup k = some r ∧
        l.currentVersion = r.currentVersion) := by
    intro k
    rw [hw2]
    simp only
    rw [lookup_pullNewLocal g w1.localEnv w1.remoteEnv k]
    rw [hw1]
    simp only
    rw [lookup_pushNewLocal f w.localEnv w.remoteEnv k]
    rw [lookup_pushNewRemote f w.remoteEnv hL k]
    cases hlk : w.localEnv.lookup k with
    | none =>
      cases hrk : w.remoteEnv.lookup k with
      | none => simp
      | some r =>
        right
        exact ⟨adoptRemote r, r, by simp, rfl, rfl⟩
    | some l =>
      cases hc : pushConflict l (w.remoteEnv.lookup k) with
      | true =>
        have hf : f = true := push_success_force_of_conflict hL hpushsucc hlk hc
        subst hf
        right
        refine ⟨adoptRemote l, l, ?_, ?_, rfl⟩
        · simp [pushKeyLocal, pushKeyRemote, hc, step l]
        · simp [pushKeyRemote, hc]
      | false =>
        by_cases hle : rcOf (w.remoteEnv.lookup k) ≤ l.currentVersion
        · right
          refine ⟨adoptRemote l, l, ?_, ?_, rfl⟩
          · simp [pushKeyLocal, pushKeyRemote, hc, hle, step l]
          · simp [pushKeyRemote, hc, hle]
        · cases hrk : w.remoteEnv.lookup k with
          | none =>
            exact absurd (by simpa [hrk, rcOf] using hpos k l hlk) hle
          | some r =>
            rw [hrk] at hc hle
            have hconf2 : pullConflict l r = false := by
              simp only [pushConflict, rcOf] at hc
              simpa [pullConflict] using hc
            have hlt : l.currentVersion ≤ r.currentVersion := by
              simp only [rcOf] at hle
              omega
            right
            refine ⟨adoptRemote r, r, ?_, ?_, rfl⟩
            · simp [pushKeyLocal, pushKeyRemote, hc, hle, pullKeyLocal, hconf2, hlt]
            · simp [pushKeyRemote, hc, hle]
  refine ⟨?_, ?_⟩
  · intro k
    rcases master k with ⟨h1, h2⟩ | ⟨l, r, h1, h2, _⟩
    · rw [h1, h2]
    · rw [h1, h2]
      rfl
  · intro k l r h1 h2
    rcases master k with ⟨g1, g2⟩ | ⟨l2, r2, g1, g2, gv⟩
    · rw [g1] at h1
      exact absurd h1 (by simp)
    · rw [g1] at h1
      rw [g2] at h2
      cases h1
      cases h2
      exact gv

/-- Witness for `push_pull_roundtrip`: pushing a fresh local key to an
empty remote and pulling back leaves both sides holding `TOKEN` at
version 1. -/
theorem push_pull_roundtrip_witness :
    KeysNodup ([("TOKEN", ⟨1, 0, []⟩)] : Env) ∧
    pushRun false ⟨[("TOKEN", ⟨1, 0, []⟩)], []⟩ =
      (⟨[("TOKEN", ⟨1, 1, []⟩)], [("TOKEN", ⟨1, 0, []⟩)]⟩, none) ∧
    pullRun false ⟨[("TOKEN", ⟨1, 1, []⟩)], [("TOKEN", ⟨1, 0, []⟩)]⟩ =
      (⟨[("TOKEN", ⟨1, 1, []⟩)], [("TOKEN", ⟨1, 0, []⟩)]⟩, none) ∧
    ((⟨[("TOKEN", ⟨1, 1, []⟩)], [("TOKEN", ⟨1, 0, []⟩)]⟩ :
        SyncWorld).localEnv.lookup "TOKEN").isSome =
      ((⟨[("TOKEN", ⟨1, 1, []⟩)], [("TOKEN", ⟨1, 0, []⟩)]⟩ :
        SyncWorld).remoteEnv.lookup "TOKEN").isSome :=
  ⟨by decide, by decide, by decide,
   (push_pull_roundtrip false false
      ⟨[("TOKEN", ⟨1, 0, []⟩)], []⟩
      ⟨[("TOKEN", ⟨1, 1, []⟩)], [("TOKEN", ⟨1, 0, []⟩)]⟩
      ⟨[("TOKEN", ⟨1, 1, []⟩)], [("TOKEN", ⟨1, 0, []⟩)]⟩
      (by decide)
      (by
        intro k l h
        simp only [List.lookup] at h
        cases hkk : (k == "TOKEN") with
        | true =>
          rw [hkk] at h
          simp only [Option.some.injEq] at h
          cases h
          decide
        | false =>
          rw [hkk] at h
          simp at h)
      (by decide) (by decide)).1 "TOKEN"⟩

/-! Vault mutation primitives (src/unnamed/part_003): `writeSecretVersion`
(used by `Set` and `Rotate`), the tombstone append of `Delete`, the copy
append of `Rollback`, and `markSyncedVersions` (modelled per record by
`markSynced`). -/

/-- `(*App).writeSecretVersion`: append a version numbered
`CurrentVersion+1` carrying the fresh ciphertext.  The AES-GCM outputs
(`nonce`, `cipher`, `hash`) and the timestamp/device are parameters; the
version bookkeeping is what this function does. -/
def writeSecretVersion (deviceID updatedAt nonceB64 cipherB64 plainHash : String)
    (rotated : Bool) (expiresAt : String) (rec : SecretRecord) : SecretRecord :=
  { rec with
    currentVersion := rec.currentVersion + 1,
    versions := rec.versions ++
      [{ version := rec.currentVersion + 1, nonceB64 := nonceB64,
         cipherB64 := cipherB64, deleted := false, rotated := rotated,
         expiresAt := expiresAt, updatedAt := updatedAt, deviceID := deviceID,
         plainHash := plainHash }] }

/-- The tombstone append inside `(*App).Delete` (lines 2058-2065): a new
version numbered `CurrentVersion+1` with `Deleted: true` and zero-valued
payload fields. -/
def deleteTombstone (deviceID updatedAt : String) (rec : SecretRecord) : SecretRecord :=
  { rec with
    currentVersion := rec.currentVersion + 1,
    versions := rec.versions ++
      [{ version := rec.currentVersion + 1, nonceB64 := "", cipherB64 := "",
         deleted := true, rotated := false, expiresAt := "",
         updatedAt := updatedAt, deviceID := deviceID, plainHash := "" }] }

/-- The copy append inside `(*App).Rollback` (lines 2252-2262): a new
version numbered `CurrentVersion+1` duplicating the target's cipher,
nonce, `Deleted` flag and plain hash, with fresh timestamp/device. -/
def rollbackVersion (deviceID updatedAt : String) (target : SecretVersion)
    (rec : SecretRecord) : SecretRecord :=
  { rec with
    currentVersion := rec.currentVersion + 1,
    versions := rec.versions ++
      [{ version := rec.currentVersion + 1, nonceB64 := target.nonceB64,
         cipherB64 := target.cipherB64, deleted := target.deleted,
         rotated := false, expiresAt := "", updatedAt := updatedAt,
         deviceID := deviceID, plainHash := target.plainHash }] }

/-- Strictly increasing version numbers along the list. -/
abbrev VersionsSorted (vs : List SecretVersion) : Prop :=
  vs.Chain' (fun a b => a.version < b.version)

/-- The record invariant of the spec: versions strictly increasing,
`CurrentVersion` equal to the last version's number, and
`LastSyncedRemoteVersion ≤ CurrentVersion`. -/
abbrev RecordInv (r : SecretRecord) : Prop :=
  VersionsSorted r.versions ∧
  r.versions.getLast?.map (fun v => v.version) = some r.currentVersion ∧
  r.lastSyncedRemoteVersion ≤ r.currentVersion

/-- The weaker precondition satisfied both by invariant records and by the
fresh zero record `&SecretRecord{}` that `Set` starts from on a new key. -/
abbrev RecordOk (r : SecretRecord) : Prop :=
  VersionsSorted r.versions ∧
  (∀ v ∈ r.versions, v.version ≤ r.currentVersion) ∧
  (r.versions = [] ∨
    r.versions.getLast?.map (fun v => v.version) = some r.currentVersion) ∧
  r.lastSyncedRemoteVersion ≤ r.currentVersion

theorem mem_of_getLast?_eq_some {α : Type} {l : List α} {x : α}
    (h : l.getLast? = some x) : x ∈ l := by
  obtain ⟨hne, hx⟩ := List.mem_getLast?_eq_getLast (show x ∈ l.getLast? from h)
  rw [hx]
  exact List.getLast_mem hne

theorem sorted_all_le_last {vs : List SecretVersion} (h : VersionsSorted vs)
    {x : SecretVersion} (hx : vs.getLast? = some x) :
    ∀ v ∈ vs, v.version ≤ x.version := by
  induction vs with
  | nil => simp
  | cons a t ih =>
    cases t with
    | nil =>
      intro v hv
      have hax : a = x := by
        simpa using hx
      have hva : v = a := by
        simpa using hv
      rw [hva, hax]
    | cons b t2 =>
      have hrel : a.version < b.version := (List.chain'_cons.mp h).1
      have htail : VersionsSorted (b :: t2) := (List.chain'_cons.mp h).2
      have hx2 : (b :: t2).getLast? = some x := by
        simpa [List.getLast?_cons_cons] using hx
      intro v hv
      rcases List.mem_cons.mp hv with rfl | hvt
      · exact le_of_lt (lt_of_lt_of_le hrel
          (ih htail hx2 b (List.mem_cons_self b t2)))
      · exact ih htail hx2 v hvt

theorem recordInv_recordOk {r : SecretRecord} (h : RecordInv r) : RecordOk r := by
  obtain ⟨hs, hlast, hls⟩ := h
  refine ⟨hs, ?_, Or.inr hlast, hls⟩
  cases hx : r.versions.getLast? with
  | none =>
    rw [hx] at hlast
    exact Option.noConfusion hlast
  | some x =>
    rw [hx] at hlast
    injection hlast with hlast
    intro v hv
    calc v.version ≤ x.version := sorted_all_le_last hs hx v hv
    _ = r.currentVersion := hlast

theorem versionsSorted_append {vs : List SecretVersion} (h : VersionsSorted vs)
    {v : SecretVersion} (hlt : ∀ u ∈ vs, u.version < v.version) :
    VersionsSorted (vs ++ [v]) := by
  show List.Chain' (fun a b => a.version < b.version) (vs ++ [v])
  rw [List.chain'_append]
  refine ⟨h, List.chain'_singleton v, ?_⟩
  intro x hx y hy
  simp only [List.head?_cons, Option.mem_def, Option.some.injEq] at hy
  subst hy
  exact hlt x (mem_of_getLast?_eq_some hx)

theorem recordOk_append_next {r : SecretRecord} (h : RecordOk r)
    {v : SecretVersion} (hv : v.version = r.currentVersion + 1)
    {ls : Int} (hls : ls ≤ r.currentVersion + 1) :
    RecordInv { currentVersion := r.currentVersion + 1,
                lastSyncedRemoteVersion := ls,
                versions := r.versions ++ [v] } := by
  obtain ⟨hs, hall, _, _⟩ := h
  refine ⟨?_, ?_, hls⟩
  · exact versionsSorted_append hs fun u hu => by
      have := hall u hu
      omega
  · rw [List.getLast?_append_cons]
    simp [hv]

/-- C4: every vault write preserves the record invariant.  `Set`/`Rotate`
(via `writeSecretVersion`), `Delete` and `Rollback` append exactly one
new version numbered `CurrentVersion+1` and never touch existing
versions; `markSyncedVersions` and the records written into either side
by `Push`/`Pull` keep `LastSyncedRemoteVersion ≤ CurrentVersion` and
reuse intact version lists. -/
theorem record_invariant_preservation :
    (∀ dev upd n c h rot exp rec, RecordOk rec →
      RecordInv (writeSecretVersion dev upd n c h rot exp rec) ∧
      ∃ v, (writeSecretVersion dev upd n c h rot exp rec).versions =
        rec.versions ++ [v] ∧ v.version = rec.currentVersion + 1) ∧
    (∀ dev upd rec, RecordOk rec →
      RecordInv (deleteTombstone dev upd rec) ∧
      ∃ v, (deleteTombstone dev upd rec).versions = rec.versions ++ [v] ∧
        v.version = rec.currentVersion + 1) ∧
    (∀ dev upd target rec, RecordOk rec →
      RecordInv (rollbackVersion dev upd target rec) ∧
      ∃ v, (rollbackVersion dev upd target rec).versions = rec.versions ++ [v] ∧
        v.version = rec.currentVersion + 1) ∧
    (∀ rec, RecordInv rec →
      RecordInv (markSynced rec) ∧ (markSynced rec).versions = rec.versions) ∧
    (∀ force L R, (∀ p ∈ L, RecordInv (Prod.snd p)) →
      (∀ p ∈ R, RecordInv (Prod.snd p)) →
      (∀ p ∈ pushNewLocal force L R, RecordInv (Prod.snd p)) ∧
      (∀ p ∈ pushNewRemote force L R, RecordInv (Prod.snd p))) ∧
    (∀ forceRemote L R, (∀ p ∈ L, RecordInv (Prod.snd p)) →
      (∀ p ∈ R, RecordInv (Prod.snd p)) →
      (∀ p ∈ pullNewLocal forceRemote L R, RecordInv (Prod.snd p))) := by
  have hmark : ∀ rec, RecordInv rec → RecordInv (markSynced rec) := by
    intro rec ⟨hs, hlast, _⟩
    exact ⟨hs, hlast, le_refl _⟩
  have hadopt : ∀ rec, RecordInv rec → RecordInv (adoptRemote rec) := by
    intro rec ⟨hs, hlast, _⟩
    exact ⟨hs, hlast, le_refl _⟩
  refine ⟨?_, ?_, ?_, ?_, ?_, ?_⟩
  · intro dev upd n c h rot exp rec hok
    refine ⟨recordOk_append_next hok rfl ?_, _, rfl, rfl⟩
    have := hok.2.2.2
    omega
  · intro dev upd rec hok
    refine ⟨recordOk_append_next hok rfl ?_, _, rfl, rfl⟩
    have := hok.2.2.2
    omega
  · intro dev upd target rec hok
    refine ⟨recordOk_append_next hok rfl ?_, _, rfl, rfl⟩
    have := hok.2.2.2
    omega
  · intro rec hinv
    exact ⟨hmark rec hinv, rfl⟩
  · intro force L R hL hR
    constructor
    · intro p hp
      unfold pushNewLocal at hp
      obtain ⟨q, hq, rfl⟩ := List.mem_map.mp hp
      have hq2 := hL q hq
      show RecordInv (pushKeyLocal force q.2 (R.lookup q.1))
      unfold pushKeyLocal
      split
      all_goals split
      all_goals first
        | exact hmark _ hq2
        | exact hq2
    · intro p hp
      unfold pushNewRemote at hp
      rcases List.mem_append.mp hp with hp1 | hp2
      · obtain ⟨q, hq, hmapped⟩ := List.mem_filterMap.mp hp1
        have hq2 := hL q hq
        cases hres : pushKeyRemote force q.2 (R.lookup q.1) with
        | none =>
          rw [hres] at hmapped
          exact Option.noConfusion hmapped
        | some out =>
          rw [hres] at hmapped
          injection hmapped with hmapped
          subst hmapped
          show RecordInv out
          unfold pushKeyRemote at hres
          split at hres
          all_goals split at hres
          all_goals first
            | (cases hres; exact hq2)
            | exact hR _ (mem_of_lookup_eq_some hres)
      · exact hR p (List.mem_of_mem_filter hp2)
  · intro forceRemote L R hL hR
    intro p hp
    unfold pullNewLocal at hp
    rcases List.mem_append.mp hp with hp1 | hp2
    · obtain ⟨q, hq, rfl⟩ := List.mem_map.mp hp1
      have hq2 := hL q hq
      show RecordInv (match R.lookup q.1 with
                      | some r => pullKeyLocal forceRemote q.2 r
                      | none => q.2)
      cases hrk : R.lookup q.1 with
      | none => exact hq2
      | some r =>
        have hrInv : RecordInv r := hR _ (mem_of_lookup_eq_some hrk)
        show RecordInv (pullKeyLocal forceRemote q.2 r)
        unfold pullKeyLocal
        split
        · split
          · exact hadopt _ hrInv
          · exact hq2
        · split
          · exact hadopt _ hrInv
          · exact hq2
    · obtain ⟨q, hq, rfl⟩ := List.mem_map.mp hp2
      have hqR : RecordInv q.2 := hR q (List.mem_of_mem_filter hq)
      exact hadopt _ hqR

/-- Witness for `record_invariant_preservation`: a `Set` on a fresh
record yields an invariant-satisfying record with one version. -/
theorem record_invariant_preservation_witness :
    RecordOk (⟨0, 0, []⟩ : SecretRecord) ∧
    RecordInv (writeSecretVersion "dev1" "2024-01-01T00:00:00Z" "n" "c" "h"
      false "" ⟨0, 0, []⟩) :=
  ⟨by decide,
   (record_invariant_preservation.1 "dev1" "2024-01-01T00:00:00Z" "n" "c" "h"
      false "" ⟨0, 0, []⟩ (by decide)).1⟩

/-! Remote revision contract: the file backend `(*App).saveRemoteFile`
(src/internal/envsync/remote.go lines 78-115) and the cloud
`(*cloudServer).handleStore` PUT path with the repository `Put`
(src/unnamed/part_012).  The `projects`/`teams` payload is carried as an
opaque blob: neither save path inspects it (the cloud store keeps it as
`map[string]any`) — only the revision envelope matters here. -/

/-- The revision-bearing remote store envelope persisted by the file
backend. -/
structure RemoteStoreM where
  version : Int
  revision : Int
  saltB64 : String
  keyCheckB64 : String
  payload : String
deriving Repr, DecidableEq

/-- `loadRemoteFile` on a missing file returns the empty store
`{Version: 1, Revision: 0, ...}`. -/
def loadRemoteFile (disk : Option RemoteStoreM) : RemoteStoreM :=
  match disk with
  | some s => s
  | none => { version := 1, revision := 0, saltB64 := "", keyCheckB64 := "",
              payload := "" }

/-- `(*App).saveRemoteFile`: under the file lock, re-load, compare the
stored revision with `expectedRevision` (mismatch aborts with a
revision-conflict error carrying `(expected, got)` and leaves the file
untouched), else write `remote` with `Revision = current.Revision + 1`.
Returns the new disk state and the optional conflict error. -/
def saveRemoteFile (disk : Option RemoteStoreM) (remote : RemoteStoreM)
    (expectedRevision : Int) : Option RemoteStoreM × Option (Int × Int) :=
  let current := loadRemoteFile disk
  if current.revision ≠ expectedRevision then
    (disk, some (expectedRevision, current.revision))
  else
    (some { remote with revision := current.revision + 1 }, none)

/-- Go `strings.TrimSpace`, modelled over the character list (drop
leading and trailing whitespace). -/
def trimSpace (s : String) : String :=
  String.mk (((s.data.dropWhile Char.isWhitespace).reverse.dropWhile
    Char.isWhitespace).reverse)

/-- Go `strconv.Atoi`: optional sign, at least one digit, all digits,
64-bit signed range; anything else is an error. -/
def atoiModel (s : String) : Option Int :=
  let signed : Int × List Char :=
    match s.data with
    | '+' :: t => (1, t)
    | '-' :: t => (-1, t)
    | t => (1, t)
  match signed with
  | (sign, digits) =>
    if digits.isEmpty then none
    else if digits.all Char.isDigit then
      let n : Nat := digits.foldl (fun acc c => acc * 10 + (c.toNat - 48)) 0
      let v : Int := sign * (n : Int)
      if -(2 ^ 63) ≤ v ∧ v ≤ 2 ^ 63 - 1 then some v else none
    else none

/-- One cloud `VaultSnapshot` row for an `(owner, project)` pair. -/
structure CloudSnapshot where
  revision : Int
  payload : String
  saltB64 : String
  keyCheckB64 : String
deriving Repr, DecidableEq

/-- Outcome of the cloud `PUT /v1/store` after authentication and scope
checks. -/
inductive StorePutResult where
  | ok (saved : CloudSnapshot)
  | conflict (expected got : Int)
  | preconditionRequired
  | badRequest
deriving Repr, DecidableEq

/-- The stored revision that `repo.Put` compares against (0 when the row
is missing). -/
def currentRevisionOf : Option CloudSnapshot → Int
  | some s => s.revision
  | none => 0

/-- `(*cloudServer).handleStore` PUT path combined with `pgRepo.Put` /
`memoryRepo.Put` (both enforce the same revision check): trim `If-Match`;
empty → 428 `precondition_required`; non-integer → 400 `bad_request`
(`strconv.Atoi` fails); revision mismatch → 409 `conflict` leaving the
snapshot unchanged; match → save with `revision = current + 1`. -/
def handleStorePut (ifMatch : String) (stored : Option CloudSnapshot)
    (body : CloudSnapshot) : Option CloudSnapshot × StorePutResult :=
  let m := trimSpace ifMatch
  if m = "" then (stored, .preconditionRequired)
  else
    match atoiModel m with
    | none => (stored, .badRequest)
    | some expectedRevision =>
      if currentRevisionOf stored ≠ expectedRevision then
        (stored, .conflict expectedRevision (currentRevisionOf stored))
      else
        (some { body with revision := currentRevisionOf stored + 1 },
         .ok { body with revision := currentRevisionOf stored + 1 })

/-- Counterexample to C3 as stated: the claim says any `If-Match` value
other than the current revision returns 409 `conflict`, but a
non-integer `If-Match` (here `"abc"` against a snapshot at revision 5)
returns 400 `bad_request` instead (with the snapshot unchanged). -/
theorem cloud_put_nonint_ifmatch_counterexample :
    handleStorePut "abc" (some ⟨5, "p", "", ""⟩) ⟨0, "q", "", ""⟩ =
      (some ⟨5, "p", "", ""⟩, .badRequest) ∧
    (∀ e g, (StorePutResult.badRequest = .conflict e g) → False) := by
  constructor
  · decide
  · intro e g h
    exact StorePutResult.noConfusion h

/-- C3 as amended: the file backend Save succeeds iff the stored revision
equals `expectedRevision`, bumping it to `expectedRevision + 1`, and a
mismatch leaves the stored file unchanged with a conflict error carrying
`(expected, got)`.  The cloud PUT obeys the same revision contract,
except that the non-200 responses distinguish: missing/blank `If-Match`
→ 428, an `If-Match` that does not parse as a 64-bit integer → 400
`bad_request` (not 409), and an integer `If-Match` different from the
current revision → 409 `conflict` with the snapshot unchanged. -/
theorem revision_contract :
    (∀ disk remote expectedRevision,
      ((saveRemoteFile disk remote expectedRevision).2 = none ↔
        (loadRemoteFile disk).revision = expectedRevision) ∧
      ((loadRemoteFile disk).revision = expectedRevision →
        (saveRemoteFile disk remote expectedRevision).1 =
          some { remote with revision := expectedRevision + 1 }) ∧
      ((loadRemoteFile disk).revision ≠ expectedRevision →
        saveRemoteFile disk remote expectedRevision =
          (disk, some (expectedRevision, (loadRemoteFile disk).revision)))) ∧
    (∀ ifMatch stored body,
      (trimSpace ifMatch = "" →
        handleStorePut ifMatch stored body = (stored, .preconditionRequired)) ∧
      (trimSpace ifMatch ≠ "" → atoiModel (trimSpace ifMatch) = none →
        handleStorePut ifMatch stored body = (stored, .badRequest)) ∧
      (∀ v, trimSpace ifMatch ≠ "" → atoiModel (trimSpace ifMatch) = some v →
        currentRevisionOf stored = v →
        handleStorePut ifMatch stored body =
          (some { body with revision := v + 1 },
           .ok { body with revision := v + 1 })) ∧
      (∀ v, trimSpace ifMatch ≠ "" → atoiModel (trimSpace ifMatch) = some v →
        currentRevisionOf stored ≠ v →
        handleStorePut ifMatch stored body =
          (stored, .conflict v (currentRevisionOf stored)))) := by
  constructor
  · intro disk remote expectedRevision
    refine ⟨?_, ?_, ?_⟩
    · unfold saveRemoteFile
      by_cases h : (loadRemoteFile disk).revision = expectedRevision
      · rw [if_neg (by simp [h])]
        simp [h]
      · rw [if_pos (by simpa using h)]
        simp [h]
    · intro h
      unfold saveRemoteFile
      rw [if_neg (by simp [h])]
      simp [h]
    · intro h
      unfold saveRemoteFile
      rw [if_pos (by simpa using h)]
  · intro ifMatch stored body
    refine ⟨?_, ?_, ?_, ?_⟩
    · intro h
      unfold handleStorePut
      rw [if_pos h]
    · intro h hnone
      unfold handleStorePut
      rw [if_neg h]
      simp only [hnone]
    · intro v h hsome hcur
      unfold handleStorePut
      rw [if_neg h]
      simp only [hsome, hcur]
      rw [if_neg (by simp)]
    · intro v h hsome hcur
      unfold handleStorePut
      rw [if_neg h]
      simp only [hsome]
      rw [if_pos hcur]

/-- Witness for `revision_contract`: a save against revision 0 succeeds
and stores revision 1; a cloud PUT with `If-Match: 5` against revision 5
returns the snapshot at revision 6. -/
theorem revision_contract_witness :
    (loadRemoteFile none).revision = 0 ∧
    (saveRemoteFile none ⟨1, 0, "s", "k", "pl"⟩ 0).1 =
      some ⟨1, 1, "s", "k", "pl"⟩ ∧
    trimSpace "5" ≠ "" ∧ atoiModel (trimSpace "5") = some 5 ∧
    currentRevisionOf (some ⟨5, "p", "", ""⟩) = 5 ∧
    handleStorePut "5" (some ⟨5, "p", "", ""⟩) ⟨0, "q", "s", "k"⟩ =
      (some ⟨6, "q", "s", "k"⟩, .ok ⟨6, "q", "s", "k"⟩) :=
  ⟨by decide,
   (revision_contract.1 none ⟨1, 0, "s", "k", "pl"⟩ 0).2.1 (by decide),
   by decide, by decide, by decide,
   (revision_contract.2 "5" (some ⟨5, "p", "", ""⟩) ⟨0, "q", "s", "k"⟩).2.2.1
     5 (by decide) (by decide) (by decide)⟩

/-! Retry loop `(*App).withHTTPRetry` (src/internal/envsync/remote.go
lines 265-291) with `remoteRetryConfig` and `isRetryableStatus`.
Durations are in nanoseconds. -/

/-- Result of one `op()` call inside the retry loop: success, or a
failure classified retryable / non-retryable. -/
inductive AttemptOutcome where
  | success
  | failure (retryable : Bool)
deriving Repr, DecidableEq

/-- `(*App).remoteRetryConfig`: non-positive settings fall back to the
defaults (3 attempts, 200 ms base, 2 s max) and `maxDelay` is raised to
at least `base`. -/
def remoteRetryConfig (attemptsIn baseIn maxIn : Int) : Nat × Nat × Nat :=
  let attempts : Int := if attemptsIn ≤ 0 then 3 else attemptsIn
  let base : Int := if baseIn ≤ 0 then 200000000 else baseIn
  let maxD0 : Int := if maxIn ≤ 0 then 2000000000 else maxIn
  let maxD : Int := if maxD0 < base then base else maxD0
  (attempts.toNat, base.toNat, maxD.toNat)

/-- The clamped pre-jitter backoff slept after attempt `i` (1-based):
`base * 2^(i-1)` capped at `maxDelay`. -/
def backoffAt (base maxDelay i : Nat) : Nat := min (base * 2 ^ (i - 1)) maxDelay

/-- `isRetryableStatus`: 429, or any 5xx. -/
def isRetryableStatus (status : Int) : Bool :=
  if status = 429 then true
  else decide (500 ≤ status) && decide (status ≤ 599)

/-- The loop body of `withHTTPRetry`, recursing on the remaining attempt
budget (`remaining = attempts - i + 1`, so `remaining = 1` means `i` is
the last attempt).  `jitter i` models the draw
`rand.Int63n(backoff/2 + 1)`, a value in `[0, backoff/2]`.  Returns
(succeeded, sleeps performed, number of `op()` calls). -/
def retryFrom (base maxDelay : Nat) (outcome : Nat → AttemptOutcome)
    (jitter : Nat → Nat) (i : Nat) : Nat → Bool × List Nat × Nat
  | 0 => (false, [], 0)
  | remaining + 1 =>
    match outcome i with
    | .success => (true, [], 1)
    | .failure retryable =>
      if retryable = false ∨ remaining = 0 then (false, [], 1)
      else
        let b := backoffAt base maxDelay i
        let s := b + jitter i
        let rest := retryFrom base maxDelay outcome jitter (i + 1) remaining
        (rest.1, s :: rest.2.1, rest.2.2 + 1)

/-- `(*App).withHTTPRetry`: run up to `attempts` attempts starting at 1,
sleeping `backoff + jitter` between retryable failures. -/
def withHTTPRetryModel (attempts base maxDelay : Nat)
    (outcome : Nat → AttemptOutcome) (jitter : Nat → Nat) :
    Bool × List Nat × Nat :=
  retryFrom base maxDelay outcome jitter 1 attempts

/-- Outcomes for the monotonicity counterexample: the first two attempts
fail retryably, the third succeeds. -/
def cxOutcome : Nat → AttemptOutcome :=
  fun i => if i ≤ 2 then .failure true else .success

/-- Jitter draws for the monotonicity counterexample: the maximal draw
(`backoff/2 = 500`) after attempt 1, the minimal draw (0) after
attempt 2. -/
def cxJitter : Nat → Nat := fun i => if i = 1 then 500 else 0

/-- Counterexample to C6 as stated: with `base = maxDelay = 1000` ns
(a legal configuration; clamping makes both backoffs 1000) and admissible
jitter draws (each `≤ backoff/2`), two retryable failures followed by
success produce the sleeps `[1500, 1000]`, which are NOT monotonically
non-decreasing. -/
theorem retry_sleep_monotonicity_counterexample :
    remoteRetryConfig 3 1000 1000 = (3, 1000, 1000) ∧
    cxJitter 1 ≤ backoffAt 1000 1000 1 / 2 ∧
    cxJitter 2 ≤ backoffAt 1000 1000 2 / 2 ∧
    withHTTPRetryModel 3 1000 1000 cxOutcome cxJitter = (true, [1500, 1000], 3) ∧
    ¬(1500 ≤ 1000) := by
  decide

theorem retryFrom_calls_le (base maxDelay : Nat) (outcome : Nat → AttemptOutcome)
    (jitter : Nat → Nat) :
    ∀ remaining i, (retryFrom base maxDelay outcome jitter i remaining).2.2 ≤ remaining := by
  intro remaining
  induction remaining with
  | zero =>
    intro i
    simp [retryFrom]
  | succ r ih =>
    intro i
    unfold retryFrom
    cases outcome i with
    | success => simp
    | failure retryable =>
      simp only
      split
      · simp
      · have := ih (i + 1)
        simp only
        omega

/-- The sleeps the retry loop performs for `K` consecutive retryable
failures starting at attempt `start`: one `backoff + jitter` per
failure. -/
def expectedSleeps (base maxDelay : Nat) (jitter : Nat → Nat) :
    Nat → Nat → List Nat
  | _, 0 => []
  | start, K + 1 =>
    (backoffAt base maxDelay start + jitter start) ::
      expectedSleeps base maxDelay jitter (start + 1) K

theorem expectedSleeps_length (base maxDelay : Nat) (jitter : Nat → Nat) :
    ∀ K start, (expectedSleeps base maxDelay jitter start K).length = K := by
  intro K
  induction K with
  | zero =>
    intro start
    rfl
  | succ K ih =>
    intro start
    unfold expectedSleeps
    simp [ih]

theorem expectedSleeps_getElem (base maxDelay : Nat) (jitter : Nat → Nat) :
    ∀ K start j, j < K →
      (expectedSleeps base maxDelay jitter start K)[j]? =
        some (backoffAt base maxDelay (start + j) + jitter (start + j)) := by
  intro K
  induction K with
  | zero =>
    intro start j hj
    omega
  | succ K ih =>
    intro start j hj
    unfold expectedSleeps
    cases j with
    | zero => simp
    | succ j2 =>
      simp only [List.getElem?_cons_succ]
      rw [ih (start + 1) j2 (by omega),
        show start + 1 + j2 = start + (j2 + 1) from by omega]

theorem retryFrom_run {base maxDelay : Nat} {outcome : Nat → AttemptOutcome}
    {jitter : Nat → Nat} :
    ∀ (K start remaining : Nat), K < remaining →
      (∀ i, start ≤ i → i < start + K → outcome i = .failure true) →
      outcome (start + K) = .success →
      retryFrom base maxDelay outcome jitter start remaining =
        (true, expectedSleeps base maxDelay jitter start K, K + 1) := by
  intro K
  induction K with
  | zero =>
    intro start remaining hlt hfail hsucc
    obtain ⟨r, rfl⟩ : ∃ r, remaining = r + 1 := ⟨remaining - 1, by omega⟩
    unfold retryFrom
    rw [show start + 0 = start by omega] at hsucc
    rw [hsucc]
    rfl
  | succ K ih =>
    intro start remaining hlt hfail hsucc
    obtain ⟨r, rfl⟩ : ∃ r, remaining = r + 1 := ⟨remaining - 1, by omega⟩
    have hr : K < r := by omega
    have hstart : outcome start = .failure true :=
      hfail start (le_refl start) (by omega)
    have hfail2 : ∀ i, start + 1 ≤ i → i < start + 1 + K → outcome i = .failure true := by
      intro i h1 h2
      exact hfail i (by omega) (by omega)
    have hsucc2 : outcome (start + 1 + K) = .success := by
      rw [show start + 1 + K = start + (K + 1) by omega]
      exact hsucc
    unfold retryFrom
    rw [hstart]
    simp only
    rw [if_neg (by
      intro h
      rcases h with h | h
      · exact Bool.noConfusion h
      · omega)]
    rw [ih (start + 1) r hr hfail2 hsucc2]
    rfl

/-- C6 as amended: the retry loop makes at most N attempts;
`isRetryableStatus` accepts exactly 429 and 500-599 (never another 4xx);
given K consecutive retryable failures followed by success with K < N
(and each jitter draw within its `[0, backoff/2]` range), the operation
succeeds after exactly K+1 attempts, and the i-th sleep (1-based) lies in
`[b_i, b_i + b_i/2]` where `b_i = min(base*2^(i-1), maxDelay)` is the
clamped pre-jitter backoff; the b_i are monotonically non-decreasing, but
the full sleeps (with jitter) need NOT be monotone once clamping at
`maxDelay` occurs. -/
theorem retry_contract (attempts base maxDelay : Nat)
    (outcome : Nat → AttemptOutcome) (jitter : Nat → Nat) :
    (withHTTPRetryModel attempts base maxDelay outcome jitter).2.2 ≤ attempts ∧
    (∀ status : Int,
      (isRetryableStatus status = true ↔
        (status = 429 ∨ (500 ≤ status ∧ status ≤ 599))) ∧
      (400 ≤ status → status < 500 → status ≠ 429 →
        isRetryableStatus status = false)) ∧
    (∀ K, K < attempts →
      (∀ i, 1 ≤ i → i ≤ K → outcome i = .failure true) →
      outcome (K + 1) = .success →
      (∀ i, 1 ≤ i → i ≤ K → jitter i ≤ backoffAt base maxDelay i / 2) →
      withHTTPRetryModel attempts base maxDelay outcome jitter =
        (true, expectedSleeps base maxDelay jitter 1 K, K + 1) ∧
      (expectedSleeps base maxDelay jitter 1 K).length = K ∧
      (∀ j, j < K →
        (expectedSleeps base maxDelay jitter 1 K)[j]? =
          some (backoffAt base maxDelay (j + 1) + jitter (j + 1)) ∧
        backoffAt base maxDelay (j + 1) ≤
          backoffAt base maxDelay (j + 1) + jitter (j + 1) ∧
        backoffAt base maxDelay (j + 1) + jitter (j + 1) ≤
          backoffAt base maxDelay (j + 1) + backoffAt base maxDelay (j + 1) / 2 ∧
        backoffAt base maxDelay (j + 1) ≤ backoffAt base maxDelay (j + 2))) := by
  refine ⟨retryFrom_calls_le base maxDelay outcome jitter attempts 1, ?_, ?_⟩
  · intro status
    constructor
    · unfold isRetryableStatus
      by_cases h : status = 429
      · simp [h]
      · rw [if_neg h]
        simp only [Bool.and_eq_true, decide_eq_true_eq]
        constructor
        · intro ⟨h1, h2⟩
          exact Or.inr ⟨h1, h2⟩
        · intro hor
          rcases hor with h1 | h1
          · exact absurd h1 h
          · exact h1
    · intro h1 h2 h3
      unfold isRetryableStatus
      rw [if_neg h3]
      have h4 : ¬(500 ≤ status) := by omega
      simp [h4]
  · intro K hK hfail hsucc hjit
    have hfail2 : ∀ i, 1 ≤ i → i < 1 + K → outcome i = .failure true := by
      intro i h1 h2
      exact hfail i h1 (by omega)
    have hsucc2 : outcome (1 + K) = .success := by
      rw [show 1 + K = K + 1 by omega]
      exact hsucc
    have hrun := @retryFrom_run base maxDelay outcome jitter K 1 attempts hK hfail2 hsucc2
    refine ⟨hrun, expectedSleeps_length base maxDelay jitter K 1, ?_⟩
    intro j hj
    have hget := expectedSleeps_getElem base maxDelay jitter K 1 j hj
    rw [show 1 + j = j + 1 by omega] at hget
    refine ⟨hget, Nat.le_add_right _ _, ?_, ?_⟩
    · have := hjit (j + 1) (by omega) (by omega)
      omega
    · unfold backoffAt
      have hpow : base * 2 ^ (j + 1 - 1) ≤ base * 2 ^ (j + 2 - 1) := by
        apply Nat.mul_le_mul_left
        apply Nat.pow_le_pow_right
        · omega
        · omega
      exact min_le_min hpow (le_refl maxDelay)

/-- Witness for `retry_contract`: with the default configuration
(3 attempts, 200 ms base, 2 s cap) and one retryable failure followed by
success, the loop succeeds after 2 attempts with a single sleep of
`200ms + jitter`. -/
theorem retry_contract_witness :
    remoteRetryConfig 0 0 0 = (3, 200000000, 2000000000) ∧
    (1 : Nat) < 3 ∧
    withHTTPRetryModel 3 200000000 2000000000
      (fun i => if i = 1 then .failure true else .success)
      (fun _ => 0) =
      (true, [200000000], 2) := by
  refine ⟨by decide, by decide, ?_⟩
  have h := (retry_contract 3 200000000 2000000000
    (fun i => if i = 1 then .failure true else .success) (fun _ => 0)).2.2
    1 (by decide)
    (by
      intro i h1 h2
      have : i = 1 := by omega
      rw [this]
      simp)
    (by decide)
    (by
      intro i h1 h2
      exact Nat.zero_le _)
  exact h.1

/-! Cloud owner resolution: `(*cloudServer).resolveOwner`, `roleAllows`,
`legacyOwnerID` and the GET-time legacy fallback of `pgRepo.Get`
(src/unnamed/part_012). -/

/-- One team membership of the authenticated principal. -/
structure TeamMembership where
  teamID : String
  role : String
deriving Repr, DecidableEq

/-- One organization membership of the authenticated principal. -/
structure OrgMembership where
  organizationID : String
  role : String
deriving Repr, DecidableEq

/-- The authenticated principal: user id, the all-access flag (dev token
or `*` scope), and the memberships loaded at authentication time. -/
structure Principal where
  userID : String
  all : Bool
  orgs : List OrgMembership
  teams : List TeamMembership
deriving Repr, DecidableEq

/-- Go `strings.ToLower` restricted to the ASCII case mapping. -/
def lowerStr (s : String) : String := String.mk (s.data.map Char.toLower)

/-- `roleAllows` (src/unnamed/part_012 lines 1007-1012): rank lookup with
reader=1, maintainer=2, admin=3 and 0 for anything else; allowed iff
`current ≥ need` and `need > 0`. -/
def roleRank (role : String) : Nat :=
  let r := lowerStr (trimSpace role)
  if r = "reader" then 1
  else if r = "maintainer" then 2
  else if r = "admin" then 3
  else 0

/-- `roleAllows role required`. -/
def roleAllows (role required : String) : Bool :=
  decide (roleRank required ≤ roleRank role) && decide (0 < roleRank required)

/-- Go `strings.EqualFold` restricted to the ASCII fold. -/
def equalFold (a b : String) : Bool := lowerStr a == lowerStr b

/-- Go `strings.HasPrefix`, over the character lists. -/
def strHasPrefix (s p : String) : Bool := p.data.isPrefixOf s.data

/-- Error outcomes of `resolveOwner` (400 for the first two, 403 for the
third). -/
inductive OwnerError where
  | mutuallyExclusive
  | forbidden (msg : String)
deriving Repr, DecidableEq

/-- `(*cloudServer).resolveOwner` (lines 969-1005): with neither
`organization_id` nor `team_id` the owner key is the principal's user id
itself; with both, 400; all-access principals get the prefixed key
directly; otherwise a membership with sufficient role (`maintainer` for
PUT, `reader` otherwise) is required. -/
def resolveOwner (p : Principal) (orgIDRaw teamIDRaw : String)
    (methodIsPut : Bool) : Except OwnerError String :=
  if trimSpace orgIDRaw ≠ "" ∧ trimSpace teamIDRaw ≠ "" then
    .error .mutuallyExclusive
  else if trimSpace orgIDRaw = "" ∧ trimSpace teamIDRaw = "" then .ok p.userID
  else if p.all then
    (if trimSpace teamIDRaw ≠ "" then .ok ("team:" ++ trimSpace teamIDRaw)
     else .ok ("org:" ++ trimSpace orgIDRaw))
  else
    if trimSpace teamIDRaw ≠ "" then
      (if p.teams.any (fun mem =>
            equalFold (trimSpace mem.teamID) (trimSpace teamIDRaw) &&
            roleAllows mem.role (if methodIsPut then "maintainer" else "reader"))
       then .ok ("team:" ++ trimSpace teamIDRaw)
       else .error (.forbidden "team access denied"))
    else
      (if p.orgs.any (fun mem =>
            equalFold (trimSpace mem.organizationID) (trimSpace orgIDRaw) &&
            roleAllows mem.role (if methodIsPut then "maintainer" else "reader"))
       then .ok ("org:" ++ trimSpace orgIDRaw)
       else .error (.forbidden "organization access denied"))

/-- `legacyOwnerID` (lines 878-886): strip an `org:`/`team:` prefix to
the bare id; every other shape yields the empty string (no fallback). -/
def legacyOwnerID (ownerID : String) : String :=
  if strHasPrefix ownerID "org:" then trimSpace (String.mk (ownerID.data.drop 4))
  else if strHasPrefix ownerID "team:" then trimSpace (String.mk (ownerID.data.drop 5))
  else ""

/-- The owner-key part of `pgRepo.Get` for a fixed project: try the
resolved owner key, then (GET only) the legacy bare id when the key was
prefixed; a full miss yields the empty store at revision 0. -/
def repoGetSnapshot (rows : List (String × CloudSnapshot)) (ownerID : String) :
    CloudSnapshot :=
  match rows.lookup ownerID with
  | some s => s
  | none =>
    if legacyOwnerID ownerID ≠ "" then
      match rows.lookup (legacyOwnerID ownerID) with
      | some s => s
      | none => ⟨0, "", "", ""⟩
    else ⟨0, "", "", ""⟩

/-- Counterexample to C8 as stated: an authenticated personal request
(neither organization_id nor team_id) resolves the owner key to the BARE
user id — `resolveOwner` returns `p.UserID` verbatim (line 979) — not to
`user:<uuid>`; the same key is used for GET and PUT, and `legacyOwnerID`
only strips `org:`/`team:` prefixes, so the `user:` shape never occurs
anywhere. -/
theorem owner_key_user_prefix_counterexample :
    resolveOwner ⟨"8f14e45f-ceea-467f-a8da-aa0bcb7f6c4f", false, [], []⟩ "" "" false =
      .ok "8f14e45f-ceea-467f-a8da-aa0bcb7f6c4f" ∧
    resolveOwner ⟨"8f14e45f-ceea-467f-a8da-aa0bcb7f6c4f", false, [], []⟩ "" "" true =
      .ok "8f14e45f-ceea-467f-a8da-aa0bcb7f6c4f" ∧
    strHasPrefix "8f14e45f-ceea-467f-a8da-aa0bcb7f6c4f" "user:" = false ∧
    legacyOwnerID "user:8f14e45f-ceea-467f-a8da-aa0bcb7f6c4f" = "" := by
  refine ⟨?_, ?_, ?_, ?_⟩ <;> simp [resolveOwner, trimSpace, legacyOwnerID,
    strHasPrefix, List.isPrefixOf, List.dropWhile]

/-- C8 as amended: a personal request (no organization_id / team_id)
uses the bare authenticated user id as the VaultSnapshot owner key for
both reads and writes (there is no `user:` prefix anywhere); org and
team requests use `org:<id>` / `team:<id>` gated by membership role
(`reader` for GET, `maintainer` for PUT) unless the principal has
all-access; naming both ids is rejected; and on GET a miss on a
prefixed key falls back to the bare id via `legacyOwnerID` (which yields
no fallback for unprefixed keys). -/
theorem resolve_owner_contract :
    (∀ p m, resolveOwner p "" "" m = .ok p.userID) ∧
    (∀ p orgID teamID m, trimSpace orgID ≠ "" → trimSpace teamID ≠ "" →
      resolveOwner p orgID teamID m = .error .mutuallyExclusive) ∧
    (∀ p teamID m, p.all = true → trimSpace teamID ≠ "" →
      resolveOwner p "" teamID m = .ok ("team:" ++ trimSpace teamID)) ∧
    (∀ p teamID m, p.all = false → trimSpace teamID ≠ "" →
      (p.teams.any (fun mem =>
          equalFold (trimSpace mem.teamID) (trimSpace teamID) &&
          roleAllows mem.role (if m then "maintainer" else "reader")) = true →
        resolveOwner p "" teamID m = .ok ("team:" ++ trimSpace teamID)) ∧
      (p.teams.any (fun mem =>
          equalFold (trimSpace mem.teamID) (trimSpace teamID) &&
          roleAllows mem.role (if m then "maintainer" else "reader")) = false →
        resolveOwner p "" teamID m = .error (.forbidden "team access denied"))) ∧
    (∀ p orgID teamID m o, resolveOwner p orgID teamID m = .ok o →
      o = p.userID ∨ o = "org:" ++ trimSpace orgID ∨
        o = "team:" ++ trimSpace teamID) ∧
    (∀ s, legacyOwnerID (String.mk ("org:".data ++ s.data)) = trimSpace s) ∧
    (∀ s, legacyOwnerID (String.mk ("team:".data ++ s.data)) = trimSpace s) ∧
    (∀ rows ownerID s, rows.lookup ownerID = some s →
      repoGetSnapshot rows ownerID = s) ∧
    (∀ rows ownerID s, rows.lookup ownerID = none →
      legacyOwnerID ownerID ≠ "" →
      rows.lookup (legacyOwnerID ownerID) = some s →
      repoGetSnapshot rows ownerID = s) := by
  have hempty : trimSpace "" = "" := rfl
  refine ⟨?_, ?_, ?_, ?_, ?_, ?_, ?_, ?_, ?_⟩
  · intro p m
    unfold resolveOwner
    simp [hempty]
  · intro p orgID teamID m h1 h2
    unfold resolveOwner
    rw [if_pos ⟨h1, h2⟩]
  · intro p teamID m hall h2
    unfold resolveOwner
    rw [if_neg (by
      intro ⟨ha, _⟩
      exact ha hempty)]
    rw [if_neg (by
      intro ⟨_, hb⟩
      exact h2 hb)]
    rw [if_pos hall, if_pos h2]
  · intro p teamID m hall h2
    constructor
    · intro hany
      unfold resolveOwner
      rw [if_neg (by
        intro ⟨ha, _⟩
        exact ha hempty)]
      rw [if_neg (by
        intro ⟨_, hb⟩
        exact h2 hb)]
      rw [hall]
      simp only [Bool.false_eq_true, if_false]
      rw [if_pos h2, if_pos hany]
    · intro hany
      unfold resolveOwner
      rw [if_neg (by
        intro ⟨ha, _⟩
        exact ha hempty)]
      rw [if_neg (by
        intro ⟨_, hb⟩
        exact h2 hb)]
      rw [hall]
      simp only [Bool.false_eq_true, if_false]
      rw [if_pos h2]
      rw [if_neg (by simp [hany])]
  · intro p orgID teamID m o hok
    unfold resolveOwner at hok
    split at hok
    · exact Except.noConfusion hok
    · split at hok
      · injection hok with hok
        exact Or.inl hok.symm
      · split at hok
        · split at hok
          · injection hok with hok
            exact Or.inr (Or.inr hok.symm)
          · injection hok with hok
            exact Or.inr (Or.inl hok.symm)
        · split at hok
          all_goals split at hok
          all_goals split at hok
          all_goals first
            | exact Except.noConfusion hok
            | (injection hok with hok
               exact Or.inr (Or.inr hok.symm))
            | (injection hok with hok
               exact Or.inr (Or.inl hok.symm))
  · intro s
    have hpre : strHasPrefix (String.mk ("org:".data ++ s.data)) "org:" = true := by
      show List.isPrefixOf ['o', 'r', 'g', ':']
        ('o' :: 'r' :: 'g' :: ':' :: s.data) = true
      simp [List.isPrefixOf]
    unfold legacyOwnerID
    rw [if_pos hpre]
    rfl
  · intro s
    unfold legacyOwnerID
    rw [if_neg (by
      show ¬(List.isPrefixOf ['o', 'r', 'g', ':']
        ('t' :: 'e' :: 'a' :: 'm' :: ':' :: s.data) = true)
      simp [List.isPrefixOf])]
    rw [if_pos (by
      show List.isPrefixOf ['t', 'e', 'a', 'm', ':']
        ('t' :: 'e' :: 'a' :: 'm' :: ':' :: s.data) = true
      simp [List.isPrefixOf])]
    rfl
  · intro rows ownerID s hlk
    unfold repoGetSnapshot
    rw [hlk]
  · intro rows ownerID s hmiss hlegacy hhit
    unfold repoGetSnapshot
    rw [hmiss]
    simp only
    rw [if_pos hlegacy, hhit]

/-- Witness for `resolve_owner_contract`: a non-all-access principal with
a `reader` membership on team `t-1` resolves a GET owner key to
`team:t-1`. -/
theorem resolve_owner_contract_witness :
    (Principal.mk "u-1" false [] [⟨"t-1", "reader"⟩]).all = false ∧
    trimSpace "t-1" ≠ "" ∧
    resolveOwner ⟨"u-1", false, [], [⟨"t-1", "reader"⟩]⟩ "" "t-1" false =
      .ok ("team:" ++ trimSpace "t-1") :=
  ⟨rfl, by decide,
   (resolve_owner_contract.2.2.2.1
      ⟨"u-1", false, [], [⟨"t-1", "reader"⟩]⟩ "t-1" false rfl (by decide)).1
      (by decide)⟩

/-! Expiry handling: the `--expires-at` resolution inside `(*App).Set`
(src/unnamed/part_003 lines 1930-1940) and the expiry checks of `Get`,
`List` and `Load` (lines 2023-2029, 2115-2122, 2174-2180).  `time.Parse`
with the RFC3339 layout, `time.ParseDuration`, and
`Format(time.RFC3339)` of a UTC instant are modelled below; instants are
nanoseconds since the Unix epoch. -/

/-- Numeric value of an ASCII digit. -/
def digitVal (c : Char) : Nat := c.toNat - 48

/-- Parse exactly `n` ASCII digits. -/
def parseNDigits (n : Nat) (cs : List Char) : Option (Nat × List Char) :=
  let ds := cs.take n
  if ds.length = n ∧ ds.all Char.isDigit then
    some (ds.foldl (fun a c => a * 10 + digitVal c) 0, cs.drop n)
  else none

/-- Consume one expected character. -/
def expectChar (c : Char) : List Char → Option (List Char)
  | x :: rest => if x = c then some rest else none
  | [] => none

/-- Gregorian leap year. -/
def isLeapYear (y : Nat) : Bool :=
  (y % 4 = 0 && y % 100 ≠ 0) || y % 400 = 0

/-- Days in a month. -/
def daysInMonth (y m : Nat) : Nat :=
  if m = 2 then (if isLeapYear y then 29 else 28)
  else if m = 4 ∨ m = 6 ∨ m = 9 ∨ m = 11 then 30
  else 31

/-- A parsed RFC3339 timestamp: civil fields, fractional nanoseconds,
the numeric offset in minutes, and whether it was written as `Z`. -/
structure RFC3339Time where
  year : Nat
  month : Nat
  day : Nat
  hour : Nat
  minute : Nat
  second : Nat
  fracNs : Nat
  offsetMinutes : Int
  zuluForm : Bool
deriving Repr, DecidableEq

/-- Optional fractional seconds `.ddd…`, truncated to nanosecond
precision; a bare `.` is left in place (and will fail offset parsing,
as in Go). -/
def parseFrac : List Char → Nat × List Char
  | '.' :: rest =>
    let ds := rest.takeWhile Char.isDigit
    if ds.length = 0 then (0, '.' :: rest)
    else
      let ds9 := ds.take 9
      let v := ds9.foldl (fun a c => a * 10 + digitVal c) 0
      (v * 10 ^ (9 - ds9.length), rest.dropWhile Char.isDigit)
  | cs => (0, cs)

/-- Numeric offset `±hh:mm`. -/
def parseOffsetHM (sign : Int) (cs : List Char) :
    Option (Int × Bool × List Char) := do
  let (hh, cs) ← parseNDigits 2 cs
  let cs ← expectChar ':' cs
  let (mm, cs) ← parseNDigits 2 cs
  if hh ≤ 23 ∧ mm ≤ 59 then
    some (sign * ((hh : Int) * 60 + (mm : Int)), false, cs)
  else none

/-- The RFC3339 offset: `Z` or `±hh:mm`. -/
def parseOffset : List Char → Option (Int × Bool × List Char)
  | 'Z' :: rest => some (0, true, rest)
  | '+' :: rest => parseOffsetHM 1 rest
  | '-' :: rest => parseOffsetHM (-1) rest
  | _ => none

/-- `time.Parse(time.RFC3339, s)`: strict `YYYY-MM-DDTHH:MM:SS`, optional
fractional seconds, then `Z` or `±hh:mm`, with field validation, and no
trailing input. -/
def parseRFC3339 (s : String) : Option RFC3339Time := do
  let cs := s.data
  let (y, cs) ← parseNDigits 4 cs
  let cs ← expectChar '-' cs
  let (mo, cs) ← parseNDigits 2 cs
  let cs ← expectChar '-' cs
  let (d, cs) ← parseNDigits 2 cs
  let cs ← expectChar 'T' cs
  let (h, cs) ← parseNDigits 2 cs
  let cs ← expectChar ':' cs
  let (mi, cs) ← parseNDigits 2 cs
  let cs ← expectChar ':' cs
  let (se, cs) ← parseNDigits 2 cs
  let fr := parseFrac cs
  let (offsetMinutes, zulu, rest) ← parseOffset fr.2
  if rest = [] ∧ 1 ≤ mo ∧ mo ≤ 12 ∧ 1 ≤ d ∧ d ≤ daysInMonth y mo ∧
      h ≤ 23 ∧ mi ≤ 59 ∧ se ≤ 59 then
    some ⟨y, mo, d, h, mi, se, fr.1, offsetMinutes, zulu⟩
  else none

/-- Days since 1970-01-01 of a civil date (Gregorian, proleptic). -/
def daysFromCivil (y : Int) (m d : Nat) : Int :=
  let y2 : Int := if m ≤ 2 then y - 1 else y
  let era : Int := (if 0 ≤ y2 then y2 else y2 - 399) / 400
  let yoe : Nat := (y2 - era * 400).toNat
  let doy : Nat := (153 * (if 2 < m then m - 3 else m + 9) + 2) / 5 + d - 1
  let doe : Nat := yoe * 365 + yoe / 4 - yoe / 100 + doy
  era * 146097 + (doe : Int) - 719468

/-- The instant (ns since epoch) a parsed RFC3339 timestamp denotes. -/
def toEpochNs (t : RFC3339Time) : Int :=
  (daysFromCivil (t.year : Int) t.month t.day * 86400
    + (t.hour : Int) * 3600 + (t.minute : Int) * 60 + (t.second : Int)
    - t.offsetMinutes * 60) * 1000000000 + (t.fracNs : Int)

/-- Civil date of a day count since 1970-01-01. -/
def civilFromDays (z0 : Int) : Int × Nat × Nat :=
  let z : Int := z0 + 719468
  let era : Int := (if 0 ≤ z then z else z - 146096) / 146097
  let doe : Nat := (z - era * 146097).toNat
  let yoe : Nat := (doe - doe / 1460 + doe / 36524 - doe / 146096) / 365
  let y : Int := (yoe : Int) + era * 400
  let doy : Nat := doe - (365 * yoe + yoe / 4 - yoe / 100)
  let mp : Nat := (5 * doy + 2) / 153
  let d : Nat := doy - (153 * mp + 2) / 5 + 1
  let m : Nat := if mp < 10 then mp + 3 else mp - 9
  (if m ≤ 2 then y + 1 else y, m, d)

/-- Two-digit zero-padded decimal. -/
def pad2 (n : Nat) : List Char :=
  [Char.ofNat (48 + n / 10 % 10), Char.ofNat (48 + n % 10)]

/-- Four-digit zero-padded decimal (years up to 9999, as Go prints). -/
def pad4 (n : Nat) : List Char :=
  [Char.ofNat (48 + n / 1000 % 10), Char.ofNat (48 + n / 100 % 10),
   Char.ofNat (48 + n / 10 % 10), Char.ofNat (48 + n % 10)]

/-- The date-time part (without offset) of `Format(time.RFC3339)` for a
UTC instant; the RFC3339 layout carries no fractional seconds. -/
def fmtDatePart (ns : Int) : List Char :=
  let s : Int := Int.fdiv ns 1000000000
  let days : Int := Int.fdiv s 86400
  let sod : Nat := (s - days * 86400).toNat
  match civilFromDays days with
  | (y, m, d) =>
    pad4 y.toNat ++ '-' :: (pad2 m ++ '-' :: (pad2 d ++ 'T' ::
      (pad2 (sod / 3600) ++ ':' :: (pad2 (sod % 3600 / 60) ++ ':' ::
        pad2 (sod % 60)))))

/-- `t.UTC().Format(time.RFC3339)`: the date-time part followed by `Z`
(a UTC instant always prints the `Z` offset). -/
def fmtRFC3339UTCChars (ns : Int) : List Char := fmtDatePart ns ++ ['Z']

/-- String form of the UTC RFC3339 format. -/
def formatRFC3339UTC (ns : Int) : String := String.mk (fmtRFC3339UTCChars ns)

theorem fmtRFC3339UTCChars_ends_Z (ns : Int) :
    (fmtRFC3339UTCChars ns).getLast? = some 'Z' := by
  unfold fmtRFC3339UTCChars
  rw [show ['Z'] = 'Z' :: ([] : List Char) from rfl, List.getLast?_append_cons]
  simp

/-- The Go duration unit table (`ns`, `us`/`µs`/`μs`, `ms`, `s`, `m`,
`h`), in nanoseconds. -/
def durationUnitNs (u : List Char) : Option Nat :=
  if u = ['n', 's'] then some 1
  else if u = ['u', 's'] ∨ u = ['µ', 's'] ∨ u = ['μ', 's'] then some 1000
  else if u = ['m', 's'] then some 1000000
  else if u = ['s'] then some 1000000000
  else if u = ['m'] then some 60000000000
  else if u = ['h'] then some 3600000000000
  else none

/-- A character that belongs to a unit token (neither digit nor dot). -/
def isUnitChar (c : Char) : Bool := !(c = '.' || c.isDigit)

/-- The component loop of `time.ParseDuration`: each round reads an
integer part, an optional fraction, and a unit, and accumulates
`v*unit + f*unit/scale` (Go computes the fractional part in float64;
here it is exact integer arithmetic, which agrees on all everyday
inputs).  Fuel is the input length, enough because every round consumes
at least one character. -/
def parseDurationGo : Nat → List Char → Int → Option Int
  | 0, _, _ => none
  | _, [], acc => some acc
  | fuel + 1, cs, acc =>
    let ds := cs.takeWhile Char.isDigit
    let rest1 := cs.dropWhile Char.isDigit
    let v : Nat := ds.foldl (fun a c => a * 10 + digitVal c) 0
    match rest1 with
    | '.' :: r =>
      let fs := r.takeWhile Char.isDigit
      if ds.length = 0 ∧ fs.length = 0 then none
      else
        let rest2 := r.dropWhile Char.isDigit
        let unit := rest2.takeWhile isUnitChar
        if unit.length = 0 then none
        else
          match durationUnitNs unit with
          | none => none
          | some u =>
            let f : Nat := fs.foldl (fun a c => a * 10 + digitVal c) 0
            parseDurationGo fuel (rest2.drop unit.length)
              (acc + ((v * u + f * u / 10 ^ fs.length : Nat) : Int))
    | _ =>
      if ds.length = 0 then none
      else
        let unit := rest1.takeWhile isUnitChar
        if unit.length = 0 then none
        else
          match durationUnitNs unit with
          | none => none
          | some u =>
            parseDurationGo fuel (rest1.drop unit.length)
              (acc + ((v * u : Nat) : Int))

/-- `time.ParseDuration`: optional sign, the special case `"0"`, else at
least one `<number><unit>` component. -/
def parseDuration (s : String) : Option Int :=
  let signed : Bool × List Char :=
    match s.data with
    | '-' :: t => (true, t)
    | '+' :: t => (false, t)
    | t => (false, t)
  match signed with
  | (neg, cs) =>
    if cs = ['0'] then some 0
    else if cs = [] then none
    else
      match parseDurationGo (cs.length + 1) cs 0 with
      | some d => some (if neg then -d else d)
      | none => none

/-- The `--expires-at` resolution inside `(*App).Set`: empty means never
(stored empty); an input that parses as RFC3339 is stored VERBATIM; else
a Go duration is added to `a.Now()` and stored as `UTC().Format(RFC3339)`;
anything else is the `invalid --expires-at` error (`none`). -/
def resolveExpiry (expiresAt : String) (now : Int) : Option String :=
  if expiresAt = "" then some ""
  else
    match parseRFC3339 expiresAt with
    | some _ => some expiresAt
    | none =>
      match parseDuration expiresAt with
      | some d => some (formatRFC3339UTC (now + d))
      | none => none

/-- Counterexample to C7 as stated: `--expires-at
2025-01-01T00:00:00+05:30` is a valid RFC3339 input with a +05:30
offset; `Set` stores it verbatim, so the stored `ExpiresAt` is NOT in
UTC form (its offset is 330 minutes, not 0, and it does not end in
`Z`). -/
theorem set_expiry_utc_counterexample :
    (parseRFC3339 "2025-01-01T00:00:00+05:30").map
        (fun t => t.offsetMinutes) = some 330 ∧
    (parseRFC3339 "2025-01-01T00:00:00+05:30").map
        (fun t => t.zuluForm) = some false ∧
    resolveExpiry "2025-01-01T00:00:00+05:30" 0 =
      some "2025-01-01T00:00:00+05:30" ∧
    ("2025-01-01T00:00:00+05:30").data.getLast? = some '0' ∧
    (330 : Int) ≠ 0 := by
  decide

/-- C7 as amended: for a successful `Set` with non-empty `expiresAt`,
the stored `ExpiresAt` is the input VERBATIM when the input parses as
RFC3339 (preserving whatever offset it carries, so not necessarily UTC),
and only for duration inputs is it `now + d` rendered as absolute
RFC3339 UTC (ending in `Z`). -/
theorem set_expiry_contract (expiresAt : String) (now : Int) (out : String)
    (hne : expiresAt ≠ "") (h : resolveExpiry expiresAt now = some out) :
    ((parseRFC3339 expiresAt).isSome ∧ out = expiresAt) ∨
    (parseRFC3339 expiresAt = none ∧
      ∃ d, parseDuration expiresAt = some d ∧
        out = formatRFC3339UTC (now + d) ∧
        out.data.getLast? = some 'Z') := by
  unfold resolveExpiry at h
  rw [if_neg hne] at h
  cases hp : parseRFC3339 expiresAt with
  | some t =>
    rw [hp] at h
    injection h with h
    exact Or.inl ⟨rfl, h.symm⟩
  | none =>
    rw [hp] at h
    cases hd : parseDuration expiresAt with
    | none =>
      rw [hd] at h
      exact Option.noConfusion h
    | some d =>
      rw [hd] at h
      injection h with h
      refine Or.inr ⟨rfl, d, rfl, h.symm, ?_⟩
      rw [← h]
      exact fmtRFC3339UTCChars_ends_Z (now + d)

/-- Witness for `set_expiry_contract`: `--expires-at 24h` at epoch 0
stores the absolute UTC stamp `1970-01-02T00:00:00Z`. -/
theorem set_expiry_contract_witness :
    ("24h" : String) ≠ "" ∧
    resolveExpiry "24h" 0 = some "1970-01-02T00:00:00Z" ∧
    (((parseRFC3339 "24h").isSome ∧ "1970-01-02T00:00:00Z" = "24h") ∨
      (parseRFC3339 "24h" = none ∧
        ∃ d, parseDuration "24h" = some d ∧
          "1970-01-02T00:00:00Z" = formatRFC3339UTC (0 + d) ∧
          ("1970-01-02T00:00:00Z" : String).data.getLast? = some 'Z')) :=
  ⟨by decide, by decide,
   set_expiry_contract "24h" 0 "1970-01-02T00:00:00Z" (by decide) (by decide)⟩

/-- The expiry check shared by `Get`, `List` and `Load`: a non-empty
`ExpiresAt` counts as expired only when it parses as RFC3339 AND
`a.Now().After(exp)`; a parse error silently means never expiring. -/
def versionExpired (now : Int) (v : SecretVersion) : Bool :=
  if v.expiresAt ≠ "" then
    match parseRFC3339 v.expiresAt with
    | some t => decide (toEpochNs t < now)
    | none => false
  else false

/-- Result of `(*App).Get` after key derivation and RBAC. -/
inductive GetResult where
  | notFound
  | deletedErr
  | expiredErr (at_ : String)
  | ok (plaintext : String)
deriving Repr, DecidableEq

/-- `(*App).Get` on the looked-up record: missing record or empty
version list → not found; a deleted head → deleted; an expired head →
expired; else the decrypted current version (decryption abstracted by
`decryptFn`). -/
def getCommand (now : Int) (rec? : Option SecretRecord)
    (decryptFn : SecretVersion → String) : GetResult :=
  match rec? with
  | none => .notFound
  | some rec =>
    match rec.versions.getLast? with
    | none => .notFound
    | some v =>
      if v.deleted then .deletedErr
      else if versionExpired now v then .expiredErr v.expiresAt
      else .ok (decryptFn v)

/-- The `[EXPIRED]` suffix `(*App).List` prints after a key. -/
def listExpirySuffix (now : Int) (v : SecretVersion) : String :=
  if versionExpired now v then " [EXPIRED]" else ""

/-- Whether `(*App).Load` emits the `export` line for a record: it skips
records with no versions, deleted heads, and expired heads. -/
def loadEmits (now : Int) (rec : SecretRecord) : Bool :=
  match rec.versions.getLast? with
  | none => false
  | some v => !v.deleted && !versionExpired now v

/-- C10: a current version whose non-empty `ExpiresAt` does not parse as
RFC3339 is silently treated as never expiring: `Get` decrypts and
returns the plaintext (no Expired error), `List` prints no `[EXPIRED]`
marker, and `Load` emits the export line. -/
theorem invalid_expiry_never_expires (now : Int) (v : SecretVersion)
    (hne : v.expiresAt ≠ "") (hbad : parseRFC3339 v.expiresAt = none) :
    versionExpired now v = false ∧
    (∀ rec decryptFn, rec.versions.getLast? = some v → v.deleted = false →
      getCommand now (some rec) decryptFn = .ok (decryptFn v)) ∧
    listExpirySuffix now v = "" ∧
    (∀ rec, rec.versions.getLast? = some v → v.deleted = false →
      loadEmits now rec = true) := by
  have hexp : versionExpired now v = false := by
    unfold versionExpired
    rw [if_pos hne, hbad]
  refine ⟨hexp, ?_, ?_, ?_⟩
  · intro rec decryptFn hlast hdel
    unfold getCommand
    simp only [hlast, hdel, hexp, Bool.false_eq_true, if_false]
  · unfold listExpirySuffix
    rw [hexp]
    simp
  · intro rec hlast hdel
    unfold loadEmits
    simp only [hlast, hdel, hexp]
    rfl

/-- Witness for `invalid_expiry_never_expires`: a record whose current
version carries `ExpiresAt: "not-a-date"` is decrypted by `Get` and
emitted by `Load` at any time. -/
theorem invalid_expiry_never_expires_witness :
    ("not-a-date" : String) ≠ "" ∧
    parseRFC3339 "not-a-date" = none ∧
    getCommand 99 (some ⟨1, 0, [⟨1, "n", "c", false, false, "not-a-date",
      "1970-01-01T00:00:00Z", "dev1", "h"⟩]⟩) (fun _ => "secret") =
      .ok "secret" :=
  ⟨by decide, by decide,
   (invalid_expiry_never_expires 99
      ⟨1, "n", "c", false, false, "not-a-date", "1970-01-01T00:00:00Z", "dev1", "h"⟩
      (by decide) (by decide)).2.1
      ⟨1, 0, [⟨1, "n", "c", false, false, "not-a-date",
        "1970-01-01T00:00:00Z", "dev1", "h"⟩]⟩
      (fun _ => "secret") (by decide) rfl⟩

/-! Recovery-phrase word selection: `randomWordIndex`
(src/internal/envsync/crypto.go lines 90-99) calls
`crypto/rand.Int(rand.Reader, max)`, which draws `k = ⌈bitLen/8⌉` random
bytes, masks the top byte down to `bitLen = (max-1).BitLen()` bits so the
candidate is uniform in `[0, 2^bitLen)`, and rejects candidates `≥ max`
until one is accepted.  The tape below carries the masked candidates of
successive rounds; `runRejection` is the accept/reject loop. -/

/-- Bit length of a natural number, with explicit fuel so the kernel can
evaluate it (`bitLen 0 = 0`, `bitLen 103 = 7`). -/
def bitLenAux : Nat → Nat → Nat
  | 0, _ => 0
  | fuel + 1, n => if n = 0 then 0 else bitLenAux fuel (n / 2) + 1

/-- `(max-1).BitLen()` in Go's `math/big`. -/
def bitLen (n : Nat) : Nat := bitLenAux n n

/-- The exclusive bound of the masked candidate: `2 ^ bitLen (max-1)`. -/
def candidateBound (max : Nat) : Nat := 2 ^ bitLen (max - 1)

/-- The rejection loop of `crypto/rand.Int`: the first candidate below
`max` is the result; an exhausted tape means the reader blocked. -/
def runRejection (max : Nat) : List Nat → Option Nat
  | [] => none
  | c :: rest => if c < max then some c else runRejection max rest

/-- `randomWordIndex(max)`: `max ≤ 0` is the `invalid word list` error;
otherwise the rejection-sampled uniform index. -/
def randomWordIndexModel (max : Nat) (tape : List Nat) : Option Nat :=
  if max = 0 then none else runRejection max tape

/-- All candidate tapes of length `n` over `[0, B)`. -/
def allTapes (B : Nat) : Nat → List (List Nat)
  | 0 => [[]]
  | n + 1 => (List.range B).flatMap (fun c => (allTapes B n).map (c :: ·))

/-- Number of length-`n` candidate tapes over `[0, B)` on which the
rejection loop returns `i`. -/
def countTapesB (B max i n : Nat) : Nat :=
  (allTapes B n).countP (fun t => runRejection max t == some i)

/-- Number of length-`n` candidate tapes (over the masked candidate
range of `max`) on which `randomWordIndex(max)` returns `i`. -/
def countTapes (max i n : Nat) : Nat :=
  (allTapes (candidateBound max) n).countP
    (fun t => randomWordIndexModel max t == some i)

/-- Distribution of the modulo-reduction scheme the claim rules out: how
many of the `B` raw draws reduce to `i` under `% max`. -/
def moduloCount (B max i : Nat) : Nat :=
  (List.range B).countP (fun c => c % max == i)

theorem bitLenAux_lt (fuel : Nat) : ∀ n, n ≤ fuel → n < 2 ^ bitLenAux fuel n := by
  induction fuel with
  | zero =>
    intro n hn
    interval_cases n
    simp [bitLenAux]
  | succ fuel ih =>
    intro n hn
    unfold bitLenAux
    by_cases h0 : n = 0
    · simp [h0]
    · rw [if_neg h0]
      have hhalf : n / 2 ≤ fuel := by omega
      have := ih (n / 2) hhalf
      have h2 : n < 2 * 2 ^ bitLenAux fuel (n / 2) := by omega
      calc n < 2 * 2 ^ bitLenAux fuel (n / 2) := h2
      _ = 2 ^ (bitLenAux fuel (n / 2) + 1) := by ring

theorem lt_candidateBound (max : Nat) (h : 0 < max) : max ≤ candidateBound max := by
  unfold candidateBound bitLen
  have := bitLenAux_lt (max - 1) (max - 1) (le_refl _)
  omega

theorem runRejection_lt_max (max : Nat) :
    ∀ tape v, runRejection max tape = some v → v < max := by
  intro tape
  induction tape with
  | nil =>
    intro v h
    exact Option.noConfusion h
  | cons c rest ih =>
    intro v h
    unfold runRejection at h
    by_cases hc : c < max
    · rw [if_pos hc] at h
      injection h with h
      rw [← h]
      exact hc
    · rw [if_neg hc] at h
      exact ih v h

theorem countP_flatMap {α β : Type} (l : List α) (f : α → List β) (P : β → Bool) :
    ((l.flatMap f).countP P) = (l.map (fun a => (f a).countP P)).sum := by
  induction l with
  | nil => rfl
  | cons a t ih =>
    rw [List.flatMap_cons, List.countP_append, List.map_cons, List.sum_cons, ih]

theorem countP_map_cons (l : List (List Nat)) (c : Nat) (P : List Nat → Bool) :
    ((l.map (c :: ·)).countP P) = l.countP (fun t => P (c :: t)) := by
  induction l with
  | nil => rfl
  | cons a t ih =>
    rw [List.map_cons, List.countP_cons, List.countP_cons, ih]

theorem sum_map_const {α : Type} (l : List α) (C : Nat) :
    (l.map (fun _ => C)).sum = l.length * C := by
  induction l with
  | nil => simp
  | cons a t ih =>
    rw [List.map_cons, List.sum_cons, ih, List.length_cons]
    ring

theorem sum_indicator_range_ge (L : Nat) :
    ∀ m i, m ≤ i → ((List.range m).map (fun c => if c = i then L else 0)).sum = 0 := by
  intro m
  induction m with
  | zero =>
    intro i _
    rfl
  | succ m ih =>
    intro i hi
    rw [List.range_succ, List.map_append, List.sum_append, ih i (by omega)]
    simp only [List.map_cons, List.map_nil, List.sum_cons, List.sum_nil]
    rw [if_neg (by omega)]
    omega

theorem sum_indicator_range_lt (L : Nat) :
    ∀ m i, i < m → ((List.range m).map (fun c => if c = i then L else 0)).sum = L := by
  intro m
  induction m with
  | zero =>
    intro i hi
    omega
  | succ m ih =>
    intro i hi
    rw [List.range_succ, List.map_append, List.sum_append]
    by_cases him : i = m
    · rw [him, sum_indicator_range_ge L m m (le_refl m)]
      simp
    · rw [ih i (by omega)]
      simp only [List.map_cons, List.map_nil, List.sum_cons, List.sum_nil]
      rw [if_neg (by omega)]
      omega

theorem runRejection_cons (max c : Nat) (t : List Nat) :
    runRejection max (c :: t) = if c < max then some c else runRejection max t :=
  rfl

theorem countTapesB_succ (B max i n : Nat) (hB : max ≤ B) (hi : i < max) :
    countTapesB B max i (n + 1) =
      (allTapes B n).length + (B - max) * countTapesB B max i n := by
  unfold countTapesB
  show ((List.range B).flatMap
      (fun c => (allTapes B n).map (c :: ·))).countP
      (fun t => runRejection max t == some i) = _
  rw [countP_flatMap]
  have hg : ∀ c, ((allTapes B n).map (c :: ·)).countP
      (fun t => runRejection max t == some i) =
      if c < max then (if c = i then (allTapes B n).length else 0)
      else (allTapes B n).countP (fun t => runRejection max t == some i) := by
    intro c
    rw [countP_map_cons]
    by_cases hc : c < max
    · rw [if_pos hc]
      by_cases hci : c = i
      · rw [if_pos hci]
        have heq : (fun t => runRejection max (c :: t) == some i) =
            fun _ => true := by
          funext t
          rw [runRejection_cons, if_pos hc, hci]
          simp
        rw [heq]
        simp
      · rw [if_neg hci]
        have heq : (fun t => runRejection max (c :: t) == some i) =
            fun _ => false := by
          funext t
          rw [runRejection_cons, if_pos hc]
          simp [hci]
        rw [heq]
        simp
    · rw [if_neg hc]
      have heq : (fun t => runRejection max (c :: t) == some i) =
          fun t => runRejection max t == some i := by
        funext t
        rw [runRejection_cons, if_neg hc]
      rw [heq]
  have hmapeq : (List.range B).map
      (fun c => ((allTapes B n).map (c :: ·)).countP
        (fun t => runRejection max t == some i)) =
      (List.range B).map
      (fun c => if c < max then (if c = i then (allTapes B n).length else 0)
        else (allTapes B n).countP (fun t => runRejection max t == some i)) := by
    apply List.map_congr_left
    intro c _
    exact hg c
  rw [hmapeq]
  have hrange : List.range B = List.range max ++ (List.range (B - max)).map (max + ·) := by
    rw [← List.range_add, Nat.add_sub_cancel' hB]
  rw [hrange, List.map_append, List.sum_append]
  congr 1
  · have heq2 : (List.range max).map
        (fun c => if c < max then (if c = i then (allTapes B n).length else 0)
          else (allTapes B n).countP (fun t => runRejection max t == some i)) =
        (List.range max).map
        (fun c => if c = i then (allTapes B n).length else 0) := by
      apply List.map_congr_left
      intro c hc
      rw [if_pos (List.mem_range.mp hc)]
    rw [heq2, sum_indicator_range_lt _ max i hi]
  · rw [List.map_map]
    have heq3 : ((List.range (B - max)).map
        ((fun c => if c < max then (if c = i then (allTapes B n).length else 0)
          else (allTapes B n).countP (fun t => runRejection max t == some i)) ∘
          (max + ·))) =
        (List.range (B - max)).map
        (fun _ => (allTapes B n).countP (fun t => runRejection max t == some i)) := by
      apply List.map_congr_left
      intro c _
      show (if max + c < max then _ else _) = _
      rw [if_neg (by omega)]
    rw [heq3, sum_map_const, List.length_range]

theorem countTapesB_uniform (B max : Nat) (hB : max ≤ B) :
    ∀ n i j, i < max → j < max → countTapesB B max i n = countTapesB B max j n := by
  intro n
  induction n with
  | zero =>
    intro i j _ _
    simp [countTapesB, allTapes, runRejection]
  | succ n ih =>
    intro i j hi hj
    rw [countTapesB_succ B max i n hB hi, countTapesB_succ B max j n hB hj,
      ih i j hi hj]

theorem countTapes_eq_countTapesB (max i n : Nat) (h : 0 < max) :
    countTapes max i n = countTapesB (candidateBound max) max i n := by
  unfold countTapes countTapesB randomWordIndexModel
  congr 1
  funext t
  rw [if_neg (by omega)]

theorem countP_mod104 (i : Nat) (hi : i < 104) :
    ∀ B, (List.range B).countP (fun c => c % 104 == i) =
      B / 104 + (if i < B % 104 then 1 else 0) := by
  intro B
  induction B with
  | zero => rfl
  | succ B ih =>
    rw [List.range_succ, List.countP_append, ih]
    have hsingle : List.countP (fun c => c % 104 == i) [B] =
        if B % 104 = i then 1 else 0 := by
      simp only [List.countP_cons, List.countP_nil]
      by_cases h : B % 104 = i
      · simp [h]
      · simp [h]
    rw [hsingle]
    have h104 : B % 104 < 104 := Nat.mod_lt B (by omega)
    by_cases h : B % 104 = i <;> by_cases h2 : i < B % 104 <;>
      by_cases h3 : i < (B + 1) % 104 <;> simp [h, h2, h3] <;> omega

/-- C9: `randomWordIndex` is uniform.  Any accepted index is `< max`;
for every tape length, every index in `[0, max)` is returned on exactly
as many candidate tapes as any other (the candidates being the masked
uniform draws of `crypto/rand.Int`), so conditioned on acceptance the
selection is uniform; and, by contrast, the modulo reduction of a
uniform 2-byte draw over the 104-word list — which the code does NOT do
— would return index 0 on 631 of the 65536 draws but index 103 on only
630 (modulo bias). -/
theorem random_word_index_uniform :
    (∀ max tape v, randomWordIndexModel max tape = some v → v < max) ∧
    (∀ max n i j, 0 < max → i < max → j < max →
      countTapes max i n = countTapes max j n) ∧
    candidateBound 104 = 128 ∧
    moduloCount 65536 104 0 = 631 ∧
    moduloCount 65536 104 103 = 630 ∧
    moduloCount 65536 104 0 ≠ moduloCount 65536 104 103 := by
  have huni : ∀ max n i j, 0 < max → i < max → j < max →
      countTapes max i n = countTapes max j n := by
    intro max n i j hmax hi hj
    rw [countTapes_eq_countTapesB max i n hmax, countTapes_eq_countTapesB max j n hmax]
    exact countTapesB_uniform (candidateBound max) max
      (lt_candidateBound max hmax) n i j hi hj
  have hm0 : moduloCount 65536 104 0 = 631 := by
    unfold moduloCount
    rw [countP_mod104 0 (by omega) 65536]
    decide
  have hm103 : moduloCount 65536 104 103 = 630 := by
    unfold moduloCount
    rw [countP_mod104 103 (by omega) 65536]
    decide
  refine ⟨?_, huni, by decide, hm0, hm103, by omega⟩
  intro max tape v h
  unfold randomWordIndexModel at h
  by_cases hm : max = 0
  · rw [if_pos hm] at h
    exact Option.noConfusion h
  · rw [if_neg hm] at h
    exact runRejection_lt_max max tape v h

/-- Witness for `random_word_index_uniform` at the 104-word list: over
all two-candidate tapes, indices 0 and 103 are selected equally often,
and the accepted index on a concrete tape is below 104. -/
theorem random_word_index_uniform_witness :
    (0 : Nat) < 104 ∧
    countTapes 104 0 2 = countTapes 104 103 2 ∧
    randomWordIndexModel 104 [120, 17] = some 17 :=
  ⟨by decide,
   (random_word_index_uniform.2.1 104 2 0 103 (by decide) (by decide) (by decide)),
   by decide⟩

end EnvSync
